import Mathlib

/-!
# Verification of the DataGenFlow execution engine

A shallow embedding, in Lean 4, of the parts of the DataGenFlow repository
that the specification's claims are about:

* `lib/entities/pipeline.py` — `Usage`, `Constraints.is_exceeded`, `TraceEntry`,
  `ExecutionResult`;
* `lib/workflow.py` — `Pipeline._validate_output` and
  `Pipeline._execute_normal_pipeline` (the non-multiplier execution loop);
* `lib/job_queue.py` — the in-memory `JobQueue` (create/get/update/cancel/
  delete/history), including the shallow-copy semantics of `get_job`;
* `lib/storage.py` — the `llm_models` table operations
  (`save_llm_model`, `get_llm_model`, `delete_llm_model`).

Python dictionaries are embedded as insertion-ordered association lists,
Python numbers as `Int`/`Nat`/`ℚ`, and Python exceptions as an explicit
error type threaded through `Except`.  Wall-clock reads (`time.time()`,
`datetime.now()`) and `uuid.uuid4()` are passed in as explicit parameters.
Reference sharing of the nested `usage` dictionary inside the job queue is
made explicit with a small heap of usage objects addressed by natural
numbers.
-/

namespace DataGenFlow

/-! ## Python values and dictionaries -/

/-- A Python value, as far as the engine inspects one: integers, rationals
(standing in for floats), strings, booleans, `None`, and string-keyed
dictionaries. -/
inductive PyVal where
  | vInt (n : Int)
  | vRat (q : ℚ)
  | vStr (s : String)
  | vBool (b : Bool)
  | vNone
  | vDict (entries : List (String × PyVal))

/-- A Python `dict[str, Any]`: an insertion-ordered association list. -/
abbrev Dict := List (String × PyVal)

/-- Embeds `d.get(k)` on a Python dict. -/
def dictGet (d : Dict) (k : String) : Option PyVal :=
  (d.find? (fun p => p.1 = k)).map (fun p => p.2)

/-- Embeds `k in d` on a Python dict. -/
def dictContains (d : Dict) (k : String) : Bool :=
  d.any (fun p => p.1 = k)

/-- Embeds `d[k] = v`: overwrite in place if the key exists, else append. -/
def dictSet (d : Dict) (k : String) (v : PyVal) : Dict :=
  if d.any (fun p => p.1 = k) then
    d.map (fun p => if p.1 = k then (k, v) else p)
  else
    d ++ [(k, v)]

/-- Embeds `d.update(other)`: fold `d[k] = v` over `other` in order. -/
def dictUpdate (d other : Dict) : Dict :=
  other.foldl (fun acc p => dictSet acc p.1 p.2) d

/-- The dictionary after `d.pop(k)` / `d.pop(k, None)`. -/
def dictPop (d : Dict) (k : String) : Dict :=
  d.filter (fun p => p.1 ≠ k)

/-- Embeds `list(d.keys())`. -/
def dictKeys (d : Dict) : List String :=
  d.map (fun p => p.1)

/-! ## `Usage` (lib/entities/pipeline.py, class `Usage`)

`input_tokens`, `output_tokens`, `cached_tokens` carry a pydantic `ge=0`
bound, hence `Nat`.  Times are floats, embedded as `ℚ`; `time.time()` is an
explicit `now` parameter wherever the source calls it. -/

structure Usage where
  input_tokens : Nat := 0
  output_tokens : Nat := 0
  cached_tokens : Nat := 0
  start_time : ℚ := 0
  end_time : Option ℚ := none
deriving Repr, DecidableEq

/-- Embeds `Usage.total_tokens` (property): sum of the three token counters. -/
def Usage.total_tokens (u : Usage) : Nat :=
  u.input_tokens + u.output_tokens + u.cached_tokens

/-- Embeds `Usage.elapsed_time` (property).  The source guard is `if self.end_time:`,
which is false for `None` and for the float `0.0`; in both of those cases the
elapsed time is `time.time() - start_time`, i.e. `now - start_time`. -/
def Usage.elapsed_time (u : Usage) (now : ℚ) : ℚ :=
  match u.end_time with
  | some e => if e = 0 then now - u.start_time else e - u.start_time
  | none => now - u.start_time

/-! ## `Constraints` (lib/entities/pipeline.py, class `Constraints`)

Each limit is an `int` with pydantic bound `ge=-1`; `-1` means unlimited.
The fields default to `-1`. -/

structure Constraints where
  max_total_tokens : Int := -1
  max_total_input_tokens : Int := -1
  max_total_output_tokens : Int := -1
  max_total_cached_tokens : Int := -1
  max_total_execution_time : Int := -1
deriving Repr, DecidableEq

/-- The `checks` list built inside `Constraints.is_exceeded`: for each
constraint, its limit, the current value from the usage (tokens cast to `ℚ`
so that they share a type with the float `elapsed_time`), and its name. -/
def Constraints.checks (c : Constraints) (u : Usage) (now : ℚ) :
    List (Int × ℚ × String) :=
  [ (c.max_total_tokens, (u.total_tokens : ℚ), "max_total_tokens"),
    (c.max_total_input_tokens, (u.input_tokens : ℚ), "max_total_input_tokens"),
    (c.max_total_output_tokens, (u.output_tokens : ℚ), "max_total_output_tokens"),
    (c.max_total_cached_tokens, (u.cached_tokens : ℚ), "max_total_cached_tokens"),
    (c.max_total_execution_time, u.elapsed_time now, "max_total_execution_time") ]

/-- The `for limit, current, name in checks` loop body of
`Constraints.is_exceeded`: return `(True, name)` at the first check with
`limit >= 0 and current >= limit`, else fall through to `(False, None)`. -/
def exceededScan : List (Int × ℚ × String) → Bool × Option String
  | [] => (false, none)
  | t :: rest =>
      if 0 ≤ t.1 ∧ (t.1 : ℚ) ≤ t.2.1 then (true, some t.2.2) else exceededScan rest

/-- Embeds `Constraints.is_exceeded(usage)`: scan the checks in order. -/
def Constraints.is_exceeded (c : Constraints) (u : Usage) (now : ℚ) :
    Bool × Option String :=
  exceededScan (c.checks u now)

/-- A constraints object in which every limit is the `-1` "unlimited"
sentinel (the pydantic defaults). -/
def Constraints.allUnlimited (c : Constraints) : Prop :=
  c.max_total_tokens = -1 ∧ c.max_total_input_tokens = -1 ∧
  c.max_total_output_tokens = -1 ∧ c.max_total_cached_tokens = -1 ∧
  c.max_total_execution_time = -1

/-! ## Errors

The detail dict attached to a `ValidationError` raised by
`Pipeline._validate_output`. -/

structure ValidationDetail where
  block_type : String
  declared_outputs : List String
  actual_outputs : List String
  extra_fields : List String

/-- Modelled from the spec: the exception taxonomy of `lib/errors.py`, a file
imported by `lib/workflow.py` but absent from the source tree.  Per the
spec's error-handling design, `ValidationError` and `BlockExecutionError`
are distinct engine error kinds (so `ValidationError` is not caught by an
`except (ValueError, KeyError)` clause), and `BlockExecutionError` carries
`{block_type, step, error, input}` detail.  `typeError`, `valueError` and
`keyError` stand for Python's builtin `TypeError`, `ValueError` (including
pydantic's `ValidationError` subclass of it) and `KeyError`. -/
inductive PyError where
  | validationError (msg : String) (detail : ValidationDetail)
  | blockExecutionError (msg : String) (block_type : String) (step : Nat)
      (errMsg : String) (input : Dict)
  | typeError (msg : String)
  | valueError (msg : String)
  | keyError (msg : String)
  | otherError (msg : String)

/-- Which errors the `except (ValueError, KeyError)` clause around the
`_usage` parse catches. -/
def PyError.caughtByUsageHandler : PyError → Bool
  | .valueError _ => true
  | .keyError _ => true
  | _ => false

/-- Whether an error is the engine's `ValidationError`. -/
def PyError.isValidation : PyError → Bool
  | .validationError _ _ => true
  | _ => false

/-- Embeds `str(e)` as used in the `BlockExecutionError` message and detail. -/
def PyError.errText : PyError → String
  | .validationError m _ => m
  | .blockExecutionError m _ _ _ _ => m
  | .typeError m => m
  | .valueError m => m
  | .keyError m => m
  | .otherError m => m

/-! ## Trace entries, execution results, context
(lib/entities/pipeline.py and lib/entities/block_execution_context.py) -/

/-- Embeds `TraceEntry`: one entry per block invocation.  `execution_time` is
wall-clock in the source; the embedding stores `0` for it. -/
structure TraceEntry where
  block_type : String
  input : Dict
  output : Option Dict := none
  accumulated_state : Option Dict := none
  execution_time : Option ℚ := none
  error : Option String := none

/-- Embeds `ExecutionResult`: result of a single pipeline execution. -/
structure ExecutionResult where
  result : Dict
  trace : List TraceEntry
  trace_id : String
  usage : Usage

/-- Embeds `BlockExecutionContext`: the mutable execution context threaded through
the block loop. -/
structure BlockExecutionContext where
  trace_id : String
  job_id : Nat := 0
  pipeline_id : Nat := 0
  accumulated_state : Dict := []
  usage : Usage := {}
  trace : List TraceEntry := []
  constraints : Constraints := {}

/-! ## Blocks

A block instance, as the normal execution path of `lib/workflow.py` uses
one: its class name, its declared `outputs` list, and its async `execute`.
`execute` receives the execution context and returns a mapping or raises;
the embedding gives it the context's `accumulated_state` (the only context
component the executor's own post-processing of the return value depends
on) and lets it return a mapping or an error. -/

structure Block where
  block_type : String
  outputs : List String
  run : Dict → Except PyError Dict

/-- The message of the `ValidationError` raised by
`Pipeline._validate_output` (the source interpolates the extra-field set
into it; the embedding keeps the fixed prefix). -/
def validationMsg (b : Block) : String :=
  "Block '" ++ b.block_type ++ "' returned undeclared fields"

/-- The detail dict of the `ValidationError` raised by
`Pipeline._validate_output`: declared outputs, actual outputs, and the
extra (undeclared) fields `actual - declared`. -/
def validationDetailOf (b : Block) (result : Dict) : ValidationDetail :=
  { block_type := b.block_type,
    declared_outputs := b.outputs,
    actual_outputs := dictKeys result,
    extra_fields := ((dictKeys result).filter (fun k => ! b.outputs.contains k)).eraseDups }

/-- Embeds `Pipeline._validate_output`: skip when the block declares `"*"`,
otherwise require the returned key set to be a subset of the declared
outputs and raise `ValidationError` carrying the extra keys if not. -/
def validateOutput (b : Block) (result : Dict) : Except PyError Unit :=
  if b.outputs.contains "*" then .ok ()
  else if (dictKeys result).all (fun k => b.outputs.contains k) then .ok ()
  else .error (.validationError (validationMsg b) (validationDetailOf b result))

/-! ## Parsing a `_usage` delta

`pipeline.Usage(**value)`.  If `value` is not a mapping, the `**` unpacking
raises `TypeError`.  Otherwise pydantic validates each supplied field
(missing token fields default to `0`, a missing `start_time` defaults to
`time.time()`), raising its `ValidationError` — a `ValueError` subclass —
on a bad field value.  Pydantic's lax mode coerces integral floats and
numeric strings to `int`. -/

def coerceTokenValue : PyVal → Option Nat
  | .vInt n => if 0 ≤ n then some n.toNat else none
  | .vRat q => if q.den = 1 ∧ 0 ≤ q.num then some q.num.toNat else none
  | .vStr s =>
      match s.toInt? with
      | some n => if 0 ≤ n then some n.toNat else none
      | none => none
  | _ => none

def coerceTimeValue : PyVal → Option ℚ
  | .vInt n => some (n : ℚ)
  | .vRat q => some q
  | _ => none

def parseUsageTokenField (d : Dict) (k : String) : Except PyError Nat :=
  match dictGet d k with
  | none => .ok 0
  | some v =>
      match coerceTokenValue v with
      | some n => .ok n
      | none => .error (.valueError ("validation error for Usage field " ++ k))

/-- Embeds `pipeline.Usage(**v)` with `now` standing for `time.time()`. -/
def parseUsage (v : PyVal) (now : ℚ) : Except PyError Usage :=
  match v with
  | .vDict d => do
      let it ← parseUsageTokenField d "input_tokens"
      let ot ← parseUsageTokenField d "output_tokens"
      let ct ← parseUsageTokenField d "cached_tokens"
      let st ←
        match dictGet d "start_time" with
        | none => Except.ok now
        | some sv =>
            match coerceTimeValue sv with
            | some q => Except.ok q
            | none => Except.error (.valueError "validation error for Usage field start_time")
      let et ←
        match dictGet d "end_time" with
        | none => Except.ok none
        | some .vNone => Except.ok none
        | some ev =>
            match coerceTimeValue ev with
            | some q => Except.ok (some q)
            | none => Except.error (.valueError "validation error for Usage field end_time")
      Except.ok { input_tokens := it, output_tokens := ot, cached_tokens := ct,
                  start_time := st, end_time := et }
  | _ => .error (.typeError "argument after ** must be a mapping")

/-- Accumulate a parsed `_usage` delta: the executor sums the three token
counters into `context.usage`. -/
def Usage.addTokens (u delta : Usage) : Usage :=
  { u with input_tokens := u.input_tokens + delta.input_tokens,
           output_tokens := u.output_tokens + delta.output_tokens,
           cached_tokens := u.cached_tokens + delta.cached_tokens }

/-- The `if "_usage" in result:` step of the block loop: pop `_usage`,
parse it, and accumulate it into the running usage.  A `ValueError` or
`KeyError` from the parse is logged and discarded (the popped key stays
removed); any other error escapes this inner handler. -/
def extractUsage (result0 : Dict) (u : Usage) (now : ℚ) :
    Except PyError (Dict × Usage) :=
  if dictContains result0 "_usage" then
    let uval := (dictGet result0 "_usage").getD .vNone
    let result1 := dictPop result0 "_usage"
    match parseUsage uval now with
    | .ok delta => .ok (result1, u.addTokens delta)
    | .error e => if e.caughtByUsageHandler then .ok (result1, u) else .error e
  else
    .ok (result0, u)

/-! ## The normal (non-multiplier) execution loop
(lib/workflow.py, `Pipeline._execute_normal_pipeline`), for a direct call
(`job_id = 0`, no job queue): the cancellation check is disabled and
`_update_job_progress` is a no-op. -/

/-- The message of a `BlockExecutionError` for step `step` (1-based). -/
def blockFailMsg (name : String) (step : Nat) (emsg : String) : String :=
  "Block '" ++ name ++ "' failed at step " ++ toString step ++ ": " ++ emsg

/-- The `except` clauses of the block loop: a `ValidationError` is re-raised
as-is; any other exception is wrapped in a `BlockExecutionError` carrying
`{block_type, step, error, input}`. -/
def wrapBlockError (name : String) (step : Nat) (inp : Dict) : PyError → PyError
  | .validationError m d => .validationError m d
  | e => .blockExecutionError (blockFailMsg name step e.errText) name step e.errText inp

/-- One iteration of the block loop (`try:` body plus `except` clauses):
snapshot the input, run the block, extract `_usage`, validate the output,
merge it into the accumulated state, and append a trace entry. -/
def processBlock (b : Block) (step : Nat) (ctx : BlockExecutionContext) (now : ℚ) :
    Except PyError BlockExecutionContext :=
  let block_input := ctx.accumulated_state
  match b.run ctx.accumulated_state with
  | .error e => .error (wrapBlockError b.block_type step block_input e)
  | .ok result0 =>
    match extractUsage result0 ctx.usage now with
    | .error e => .error (wrapBlockError b.block_type step block_input e)
    | .ok ru =>
      match validateOutput b ru.1 with
      | .error e => .error (wrapBlockError b.block_type step block_input e)
      | .ok _ =>
        let newState := dictUpdate ctx.accumulated_state ru.1
        let entry : TraceEntry :=
          { block_type := b.block_type, input := block_input, output := some ru.1,
            accumulated_state := some newState, execution_time := some 0 }
        .ok { ctx with
          accumulated_state := newState,
          usage := ru.2,
          trace := ctx.trace ++ [entry] }

/-- Embeds `for i, block in enumerate(self._block_instances)` with `step` the
1-based step number of the first block in `blocks`. -/
def runBlocks (blocks : List Block) (step : Nat) (ctx : BlockExecutionContext)
    (now : ℚ) : Except PyError BlockExecutionContext :=
  match blocks with
  | [] => .ok ctx
  | b :: rest =>
      match processBlock b step ctx now with
      | .error e => .error e
      | .ok ctx2 => runBlocks rest (step + 1) ctx2 now

/-- Embeds `initial_data.get("trace_id", str(uuid.uuid4()))` followed by pydantic
validation of the `trace_id: str` context field: a present string value is
used as-is, an absent key falls back to the freshly generated uuid, and a
present non-string value fails the context's field validation. -/
def contextTraceId (initial : Dict) (freshId : String) : Except PyError String :=
  match dictGet initial "trace_id" with
  | none => .ok freshId
  | some (.vStr s) => .ok s
  | some _ => .error (.valueError "validation error for BlockExecutionContext field trace_id")

/-- Construction of the `BlockExecutionContext` at the top of
`_execute_normal_pipeline` for a direct call: fresh empty usage stamped
with `now`, the initial data as accumulated state, empty trace. -/
def mkNormalContext (initial : Dict) (freshId : String) (now : ℚ) :
    Except PyError BlockExecutionContext :=
  match contextTraceId initial freshId with
  | .error e => .error e
  | .ok tid =>
      .ok { trace_id := tid, job_id := 0, pipeline_id := 0,
            accumulated_state := initial, usage := { start_time := now },
            trace := [], constraints := {} }

/-- Embeds `Pipeline._execute_normal_pipeline` for a direct call: build the
context, run every block in order, and return the single
`ExecutionResult`. -/
def executeNormalPipeline (blocks : List Block) (initial_data : Dict)
    (freshId : String) (now : ℚ) : Except PyError ExecutionResult :=
  match mkNormalContext initial_data freshId now with
  | .error e => .error e
  | .ok ctx0 =>
      match runBlocks blocks 1 ctx0 now with
      | .error e => .error e
      | .ok ctx =>
          .ok { result := ctx.accumulated_state, trace := ctx.trace,
                trace_id := ctx.trace_id, usage := ctx.usage }

/-! ## The in-memory job queue (lib/job_queue.py)

Job metadata is a Python dict whose `usage` entry is a nested mutable
dict.  `get_job` returns `job.copy()` — a *shallow* copy: the top level is
a new dict, the nested `usage` object is shared.  The embedding makes that
explicit: each job record stores a heap address (`usageRef`) of its usage
object, and the heap of usage objects lives in the queue state.
`datetime.now()` / `time.time()` are explicit `now`/`t` parameters. -/

/-- The nested `usage` dict created by `create_job`. -/
structure JobUsage where
  input_tokens : Nat := 0
  output_tokens : Nat := 0
  cached_tokens : Nat := 0
  start_time : ℚ := 0
  end_time : Option ℚ := none
deriving Repr, DecidableEq

/-- One job's metadata dict, as `create_job` lays it out.  `usageRef` is
the heap address of the nested `usage` dict. -/
structure JobRec where
  id : Nat
  pipeline_id : Nat
  status : String
  progress : ℚ := 0
  current_seed : Nat := 0
  total_seeds : Nat
  current_block : Option String := none
  current_step : Option String := none
  records_generated : Nat := 0
  records_failed : Nat := 0
  error : Option String := none
  started_at : Nat
  completed_at : Option Nat := none
  usageRef : Nat
deriving Repr, DecidableEq

/-- Association-list lookup keyed by `Nat` (a Python dict keyed by id):
the value of the first (and, with unique keys, only) entry for `k`. -/
def assocGet {α : Type} : List (Nat × α) → Nat → Option α
  | [], _ => none
  | p :: rest, k => if p.1 = k then some p.2 else assocGet rest k

/-- Embeds `d[k] = v` on a `Nat`-keyed Python dict. -/
def assocSet {α : Type} (l : List (Nat × α)) (k : Nat) (v : α) : List (Nat × α) :=
  if l.any (fun p => p.1 = k) then
    l.map (fun p => if p.1 = k then (k, v) else p)
  else
    l ++ [(k, v)]

/-- Embeds `del d[k]` on a `Nat`-keyed Python dict. -/
def assocRemove {α : Type} (l : List (Nat × α)) (k : Nat) : List (Nat × α) :=
  l.filter (fun p => p.1 ≠ k)

/-- Embeds `deque(maxlen=10).append(x)`: drop the leftmost element when full. -/
def dequeAppend10 (l : List Nat) (x : Nat) : List Nat :=
  if 10 ≤ l.length then l.tail ++ [x] else l ++ [x]

/-- The four terminal statuses of `update_job`. -/
def terminalStatuses : List String := ["completed", "failed", "cancelled", "stopped"]

def isTerminalStatus (s : String) : Bool := terminalStatuses.contains s

/-- The `JobQueue` state: `_jobs`, `_active_job`, `_job_history`
(a `deque(maxlen=10)` per pipeline id, default empty), plus the heap of
nested usage dicts and its next fresh address. -/
structure JobQueue where
  jobs : List (Nat × JobRec) := []
  active_job : Option Nat := none
  history : List (Nat × List Nat) := []
  heap : List (Nat × JobUsage) := []
  nextRef : Nat := 0

/-- The history deque for a pipeline (`defaultdict` default: empty). -/
def JobQueue.histList (q : JobQueue) (pipeline_id : Nat) : List Nat :=
  (assocGet q.history pipeline_id).getD []

/-- Embeds `JobQueue.create_job`: raise `RuntimeError` if the active slot is set;
otherwise record the job dict (status from the `status` parameter,
`started_at = now`, zero counters, a fresh usage dict with
`start_time = t`), set it active, and append its id to the pipeline's
history deque. -/
def JobQueue.create_job (q : JobQueue) (job_id pipeline_id total_seeds : Nat)
    (status : String) (now : Nat) (t : ℚ) : Except String JobQueue :=
  match q.active_job with
  | some a => .error ("Job " ++ toString a ++ " is already running. Cancel it first.")
  | none =>
      let j : JobRec :=
        { id := job_id, pipeline_id := pipeline_id, status := status,
          total_seeds := total_seeds, started_at := now, usageRef := q.nextRef }
      .ok { jobs := assocSet q.jobs job_id j,
            active_job := some job_id,
            history := assocSet q.history pipeline_id
              (dequeAppend10 (q.histList pipeline_id) job_id),
            heap := assocSet q.heap q.nextRef { start_time := t },
            nextRef := q.nextRef + 1 }

/-- Embeds `JobQueue.get_job`: `job.copy()` — a by-value copy of the top-level
record; the `usageRef` it carries still addresses the shared nested usage
object. -/
def JobQueue.get_job (q : JobQueue) (job_id : Nat) : Option JobRec :=
  assocGet q.jobs job_id

/-- The keyword arguments accepted by `update_job`; `none` means the key
is absent from `updates`.  A `usage` update rebinds the job's `usage`
entry to a new object. -/
structure JobUpdates where
  status : Option String := none
  progress : Option ℚ := none
  current_seed : Option Nat := none
  total_seeds : Option Nat := none
  current_block : Option (Option String) := none
  current_step : Option (Option String) := none
  records_generated : Option Nat := none
  records_failed : Option Nat := none
  error : Option (Option String) := none
  completed_at : Option Nat := none
  usage : Option JobUsage := none

/-- Embeds `JobQueue.update_job`: `False` when the job id is unknown; otherwise
`job.update(updates)`, then, when the new status is terminal, clear the
active slot if it matches and stamp `completed_at` unless supplied. -/
def JobQueue.update_job (q : JobQueue) (job_id : Nat) (u : JobUpdates) (now : Nat) :
    Bool × JobQueue :=
  match assocGet q.jobs job_id with
  | none => (false, q)
  | some j =>
      let uref := match u.usage with
        | none => j.usageRef
        | some _ => q.nextRef
      let heap2 := match u.usage with
        | none => q.heap
        | some nu => assocSet q.heap q.nextRef nu
      let nextRef2 := match u.usage with
        | none => q.nextRef
        | some _ => q.nextRef + 1
      let j2 : JobRec :=
        { j with
          status := u.status.getD j.status,
          progress := u.progress.getD j.progress,
          current_seed := u.current_seed.getD j.current_seed,
          total_seeds := u.total_seeds.getD j.total_seeds,
          current_block := u.current_block.getD j.current_block,
          current_step := u.current_step.getD j.current_step,
          records_generated := u.records_generated.getD j.records_generated,
          records_failed := u.records_failed.getD j.records_failed,
          error := u.error.getD j.error,
          completed_at := match u.completed_at with
            | some c => some c
            | none => j.completed_at,
          usageRef := uref }
      let isTerm : Bool := match u.status with
        | some s => isTerminalStatus s
        | none => false
      let active2 := if isTerm ∧ q.active_job = some job_id then none else q.active_job
      let j3 := if isTerm ∧ u.completed_at = none then
          { j2 with completed_at := some now }
        else j2
      (true,
        { q with jobs := assocSet q.jobs job_id j3, active_job := active2,
                 heap := heap2, nextRef := nextRef2 })

/-- Embeds `JobQueue.cancel_job`: set status `cancelled`, stamp `completed_at`,
clear the active slot if it matches. -/
def JobQueue.cancel_job (q : JobQueue) (job_id : Nat) (now : Nat) : Bool × JobQueue :=
  match assocGet q.jobs job_id with
  | none => (false, q)
  | some j =>
      let j2 := { j with status := "cancelled", completed_at := some now }
      let active2 := if q.active_job = some job_id then none else q.active_job
      (true, { q with jobs := assocSet q.jobs job_id j2, active_job := active2 })

/-- Embeds `JobQueue.delete_job`: remove from the job map and from the owning
pipeline's history, clear the active slot if it matches. -/
def JobQueue.delete_job (q : JobQueue) (job_id : Nat) : Bool × JobQueue :=
  match assocGet q.jobs job_id with
  | none => (false, q)
  | some j =>
      let hist2 :=
        match assocGet q.history j.pipeline_id with
        | none => q.history
        | some h =>
            if h.contains job_id then
              assocSet q.history j.pipeline_id (h.filter (fun x => x ≠ job_id))
            else q.history
      let active2 := if q.active_job = some job_id then none else q.active_job
      (true, { q with jobs := assocRemove q.jobs job_id, history := hist2,
                      active_job := active2 })

/-- Embeds `JobQueue.get_active_job`. -/
def JobQueue.get_active_job (q : JobQueue) : Option JobRec :=
  match q.active_job with
  | none => none
  | some a => assocGet q.jobs a

/-- Embeds `JobQueue.get_pipeline_history`: the jobs of the pipeline's history
deque, in deque order, skipping deleted ids. -/
def JobQueue.get_pipeline_history (q : JobQueue) (pipeline_id : Nat) : List JobRec :=
  (q.histList pipeline_id).filterMap (fun jid => assocGet q.jobs jid)

/-- Read the nested usage object at a heap address (what
`job["usage"]["..."]` reads through a held reference). -/
def JobQueue.readUsage (q : JobQueue) (ref : Nat) : Option JobUsage :=
  assocGet q.heap ref

/-- Overwrite the nested usage object at a heap address (what an in-place
mutation `job["usage"]["input_tokens"] = v` performs through a held
reference). -/
def JobQueue.writeUsage (q : JobQueue) (ref : Nat) (v : JobUsage) : JobQueue :=
  { q with heap := assocSet q.heap ref v }

/-! ## Job-queue operation sequences -/

/-- One public job-queue operation. -/
inductive QOp where
  | createOp (job_id pipeline_id total_seeds : Nat) (status : String) (now : Nat) (t : ℚ)
  | updateOp (job_id : Nat) (u : JobUpdates) (now : Nat)
  | cancelOp (job_id : Nat) (now : Nat)
  | deleteOp (job_id : Nat)

/-- Apply one operation (a failed `create_job` raises to the caller and
leaves the state unchanged). -/
def stepOp (q : JobQueue) : QOp → JobQueue
  | .createOp jid pid ts st now t =>
      match q.create_job jid pid ts st now t with
      | .ok q2 => q2
      | .error _ => q
  | .updateOp jid u now => (q.update_job jid u now).2
  | .cancelOp jid now => (q.cancel_job jid now).2
  | .deleteOp jid => (q.delete_job jid).2

/-- Apply a sequence of operations from a starting state. -/
def runOps (q : JobQueue) (ops : List QOp) : JobQueue :=
  ops.foldl stepOp q

/-- An update is "safe" when any status it sets on a job other than the
active one is terminal (the engine's own callers only ever move inactive
jobs to terminal statuses). -/
def SafeOp (q : JobQueue) : QOp → Prop
  | .updateOp jid u _ =>
      match u.status with
      | none => True
      | some s => isTerminalStatus s = true ∨ q.active_job = some jid
  | _ => True

/-- A sequence of operations each safe in the state it runs in. -/
inductive SafeOps : JobQueue → List QOp → Prop
  | nil (q : JobQueue) : SafeOps q []
  | cons (q : JobQueue) (op : QOp) (ops : List QOp)
      (hop : SafeOp q op) (hrest : SafeOps (stepOp q op) ops) : SafeOps q (op :: ops)

/-- Every job with a non-terminal status is the active job. -/
def NonTerminalIsActive (q : JobQueue) : Prop :=
  ∀ p ∈ q.jobs, isTerminalStatus p.2.status = false → q.active_job = some p.1

/-- At most one job in the queue has a non-terminal status. -/
def AtMostOneNonTerminal (q : JobQueue) : Prop :=
  ∀ p1 ∈ q.jobs, ∀ p2 ∈ q.jobs,
    isTerminalStatus p1.2.status = false → isTerminalStatus p2.2.status = false →
    p1 = p2

/-- Every stored job record's `id` field agrees with its key in `_jobs`. -/
def IdKey (q : JobQueue) : Prop :=
  ∀ p ∈ q.jobs, p.2.id = p.1

/-- The job ids passed to successful-or-failed `create` calls for a given
pipeline, in operation order. -/
def createdIds (ops : List QOp) (pid : Nat) : List Nat :=
  ops.filterMap (fun op =>
    match op with
    | .createOp jid p _ _ _ _ => if p = pid then some jid else none
    | _ => none)

/-- The last (up to) ten elements of a list — what a `deque(maxlen=10)`
retains after the list has been appended to it element by element. -/
def takeRight10 (l : List Nat) : List Nat :=
  l.drop (l.length - 10)

/-- The job ids of the *successful* `create` calls for a given pipeline,
in operation order, along a run from state `q` (a create succeeds exactly
when the active slot is empty at that point of the run). -/
def createdSucc : JobQueue → List QOp → Nat → List Nat
  | _, [], _ => []
  | q, op :: rest, pid =>
      (match op with
       | .createOp jid p _ _ _ _ =>
           if p = pid ∧ q.active_job = none then [jid] else []
       | _ => []) ++ createdSucc (stepOp q op) rest pid

def isDeleteOp : QOp → Bool
  | .deleteOp _ => true
  | _ => false

/-- An operation sequence containing no `delete_job` call (deletion is the
one operation that removes ids from a pipeline's history deque). -/
def NoDeletes (ops : List QOp) : Prop :=
  ∀ op ∈ ops, isDeleteOp op = false

/-! ## The `llm_models` table (lib/storage.py)

`CREATE TABLE llm_models (name TEXT PRIMARY KEY, provider TEXT NOT NULL,
endpoint TEXT NOT NULL, api_key TEXT, model_name TEXT NOT NULL)` — five
columns, no `is_default` column. -/

structure LlmModelRow where
  name : String
  provider : String
  endpoint : String
  api_key : Option String
  model_name : String
deriving Repr, DecidableEq

abbrev LlmModelsTable := List LlmModelRow

/-- Embeds `Storage.save_llm_model`: `INSERT ... ON CONFLICT(name) DO UPDATE` of
the five columns (an upsert keyed on `name`; nothing else changes). -/
def save_llm_model (tbl : LlmModelsTable) (cfg : LlmModelRow) : LlmModelsTable :=
  if tbl.any (fun r => r.name = cfg.name) then
    tbl.map (fun r => if r.name = cfg.name then cfg else r)
  else
    tbl ++ [cfg]

/-- Embeds `Storage.get_llm_model`: `SELECT * FROM llm_models WHERE name = ?`. -/
def get_llm_model (tbl : LlmModelsTable) (name : String) : Option LlmModelRow :=
  tbl.find? (fun r => r.name = name)

/-- Embeds `Storage.delete_llm_model`: `DELETE FROM llm_models WHERE name = ?`,
returning whether a row was deleted. -/
def delete_llm_model (tbl : LlmModelsTable) (name : String) :
    LlmModelsTable × Bool :=
  (tbl.filter (fun r => r.name ≠ name), tbl.any (fun r => r.name = name))

/-- The `LLMModelConfig` pydantic model (lib/entities/llm_config.py). -/
structure LLMModelConfig where
  name : String
  provider : String
  endpoint : String
  api_key : String
  model_name : String
  is_default : Bool
deriving Repr, DecidableEq

/-- Embeds `LLMModelConfig(**row)` for a row read back from the `llm_models`
table: the row carries exactly the five stored columns — the table has no
`is_default` column — so pydantic fills `is_default` with its declared
default `False`, and a `NULL` api_key is validated to `""`. -/
def configFromRow (r : LlmModelRow) : LLMModelConfig :=
  { name := r.name, provider := r.provider, endpoint := r.endpoint,
    api_key := r.api_key.getD "", model_name := r.model_name,
    is_default := false }

/-! ## Verification predicates and concrete fixtures -/

/-- The trace discipline of the normal execution loop, relating a starting
accumulated state `a`, a trace, and the final accumulated state: each
entry's `input` is the state before its block, its `accumulated_state` is
`some` of the state after merging its output, and the states chain. -/
def Chained : Dict → List TraceEntry → Dict → Prop
  | a, [], fin => fin = a
  | a, e :: rest, fin =>
      e.input = a ∧
      ∃ out, e.output = some out ∧
        e.accumulated_state = some (dictUpdate a out) ∧
        Chained (dictUpdate a out) rest fin

/-- A one-output block used as a concrete fixture: declares `["x"]` and
returns `{"x": 1}`. -/
def c4Block : Block :=
  { block_type := "W", outputs := ["x"], run := fun _ => .ok [("x", .vInt 1)] }

/-- The execution result of running `[c4Block]` on `{}` with fresh id `"t"`
at time `0`. -/
def c4Expected : ExecutionResult :=
  { result := [("x", PyVal.vInt 1)],
    trace := [{ block_type := "W", input := [], output := some [("x", PyVal.vInt 1)],
                accumulated_state := some [("x", PyVal.vInt 1)],
                execution_time := some 0 }],
    trace_id := "t", usage := { start_time := 0 } }

/-- A block declaring unrestricted outputs and returning `{}`. -/
def c7Block : Block :=
  { block_type := "B", outputs := ["*"], run := fun _ => .ok [] }

/-- The execution result of running `[c7Block]` on `{}` with fresh id `"f"`
at time `0`. -/
def c7Expected : ExecutionResult :=
  { result := [],
    trace := [{ block_type := "B", input := [], output := some [],
                accumulated_state := some [], execution_time := some 0 }],
    trace_id := "f", usage := { start_time := 0 } }

/-- A block that violates its declared outputs: declares `["x"]` but
returns `{"y": 2}` (no `_usage`). -/
def c1ViolBlock : Block :=
  { block_type := "V", outputs := ["x"], run := fun _ => .ok [("y", .vInt 2)] }

/-- The context built by `mkNormalContext [] "t" 0`. -/
def c1Ctx0 : BlockExecutionContext := { trace_id := "t", usage := { start_time := 0 } }

/-- A block that violates its declared outputs and additionally returns a
non-mapping `_usage` value: declares `["x"]` but returns
`{"y": 2, "_usage": 42}`. -/
def c1BadUsageBlock : Block :=
  { block_type := "TextGenerator", outputs := ["x"],
    run := fun _ => .ok [("y", .vInt 2), ("_usage", .vInt 42)] }

/-- A block with well-declared outputs whose `_usage` value is the
non-mapping `42`. -/
def c6Block : Block :=
  { block_type := "TextGenerator", outputs := ["x"],
    run := fun _ => .ok [("x", .vInt 1), ("_usage", .vInt 42)] }

/-- A block with well-declared outputs whose `_usage` value is a mapping
with an unparseable token count (`{"input_tokens": None}`). -/
def c6DictBadBlock : Block :=
  { block_type := "TextGenerator", outputs := ["x"],
    run := fun _ => .ok [("x", .vInt 1),
                         ("_usage", .vDict [("input_tokens", .vNone)])] }

/-- The execution result of running `[c6DictBadBlock]` on `{}` with fresh
id `"t"` at time `0`: the malformed mapping-shaped `_usage` is discarded. -/
def c6OkExpected : ExecutionResult :=
  { result := [("x", PyVal.vInt 1)],
    trace := [{ block_type := "TextGenerator", input := [],
                output := some [("x", PyVal.vInt 1)],
                accumulated_state := some [("x", PyVal.vInt 1)],
                execution_time := some 0 }],
    trace_id := "t", usage := { start_time := 0 } }

/-- An operation sequence that breaks the single-non-terminal invariant:
create job 1, complete it, move it back to `running` while inactive, then
create job 2 (the active slot is free, so `create_job` succeeds). -/
def c2Ops : List QOp :=
  [ .createOp 1 7 5 "running" 0 0,
    .updateOp 1 { status := some "completed" } 1,
    .updateOp 1 { status := some "running" } 2,
    .createOp 2 7 5 "running" 3 3 ]

/-- Create job 1 (pipeline 7), complete it, create job 2 (pipeline 7). -/
def c8Ops : List QOp :=
  [ .createOp 1 7 5 "running" 0 0,
    .updateOp 1 { status := some "completed" } 1,
    .createOp 2 7 5 "running" 5 5 ]

/-- Create a single job 1 for pipeline 7. -/
def c9Ops : List QOp := [.createOp 1 7 5 "running" 0 0]

/-- The job record created by `create_job 1 7 5 "running"` at time 0. -/
def c9JobRec : JobRec :=
  { id := 1, pipeline_id := 7, status := "running", total_seeds := 5,
    started_at := 0, usageRef := 0 }

/-- A model-config row named `model1`. -/
def c5Row : LlmModelRow :=
  { name := "model1", provider := "openai", endpoint := "",
    api_key := none, model_name := "gpt-4" }

/-! ## Lemmas about the constraint scan -/

theorem exceededScan_fst_iff (l : List (Int × ℚ × String)) :
    (exceededScan l).1 = true ↔ ∃ t ∈ l, 0 ≤ t.1 ∧ (t.1 : ℚ) ≤ t.2.1 := by
  induction l with
  | nil => simp [exceededScan]
  | cons t rest ih =>
      by_cases h : 0 ≤ t.1 ∧ (t.1 : ℚ) ≤ t.2.1
      · simp [exceededScan, h]
      · simp [exceededScan, h, ih]

theorem exceededScan_snd_name (l : List (Int × ℚ × String)) (n : String)
    (hsnd : (exceededScan l).2 = some n) :
    ∃ t ∈ l, t.2.2 = n ∧ 0 ≤ t.1 ∧ (t.1 : ℚ) ≤ t.2.1 := by
  induction l with
  | nil => simp [exceededScan] at hsnd
  | cons t rest ih =>
      by_cases h : 0 ≤ t.1 ∧ (t.1 : ℚ) ≤ t.2.1
      · simp only [exceededScan, if_pos h] at hsnd
        exact ⟨t, List.mem_cons_self t rest, Option.some_injective _ hsnd, h.1, h.2⟩
      · simp only [exceededScan, if_neg h] at hsnd
        obtain ⟨t', ht', hrest⟩ := ih hsnd
        exact ⟨t', List.mem_cons_of_mem t ht', hrest⟩

/-! ## Claim theorems for the constraint model -/

/-- C3: `is_exceeded` returns `true` exactly when some limit field is `≥ 0`
and the corresponding current usage value satisfies `current ≥ limit`; the
returned name, when present, names such a limit; and an all-unlimited
constraints object (every field `-1`) returns `(false, none)` on every
usage, so it never terminates a job early. -/
theorem c3_is_exceeded_iff_limit_hit :
    (∀ (c : Constraints) (u : Usage) (now : ℚ),
      ((c.is_exceeded u now).1 = true ↔
        (0 ≤ c.max_total_tokens ∧ (c.max_total_tokens : ℚ) ≤ (u.total_tokens : ℚ)) ∨
        (0 ≤ c.max_total_input_tokens ∧
          (c.max_total_input_tokens : ℚ) ≤ (u.input_tokens : ℚ)) ∨
        (0 ≤ c.max_total_output_tokens ∧
          (c.max_total_output_tokens : ℚ) ≤ (u.output_tokens : ℚ)) ∨
        (0 ≤ c.max_total_cached_tokens ∧
          (c.max_total_cached_tokens : ℚ) ≤ (u.cached_tokens : ℚ)) ∨
        (0 ≤ c.max_total_execution_time ∧
          (c.max_total_execution_time : ℚ) ≤ u.elapsed_time now))) ∧
    (∀ (c : Constraints) (u : Usage) (now : ℚ), c.allUnlimited →
      c.is_exceeded u now = (false, none)) := by
  constructor
  · intro c u now
    rw [Constraints.is_exceeded, exceededScan_fst_iff]
    simp [Constraints.checks]
  · intro c u now h
    obtain ⟨h1, h2, h3, h4, h5⟩ := h
    simp [Constraints.is_exceeded, Constraints.checks, exceededScan, h1, h2, h3, h4, h5]

/-- Witness for C3: the default (all `-1`) constraints on an empty usage. -/
theorem c3_is_exceeded_iff_limit_hit_witness :
    Constraints.is_exceeded {} {} 0 = (false, none) :=
  c3_is_exceeded_iff_limit_hit.2 {} {} 0 ⟨rfl, rfl, rfl, rfl, rfl⟩

/-- C10: a limit of `0` is an active limit, not another "unlimited"
encoding: any token limit equal to `0` forces `is_exceeded` to return
`true` for every usage (token counters are nonnegative), and a constraints
object whose only non-sentinel field is a token limit set to `0` returns
`(true, name-of-that-limit)` even on a usage with zero tokens. -/
theorem c10_zero_token_limit_is_active :
    (∀ (c : Constraints) (u : Usage) (now : ℚ),
      (c.max_total_tokens = 0 ∨ c.max_total_input_tokens = 0 ∨
       c.max_total_output_tokens = 0 ∨ c.max_total_cached_tokens = 0) →
      (c.is_exceeded u now).1 = true) ∧
    (∀ (u : Usage) (now : ℚ),
      Constraints.is_exceeded { max_total_tokens := 0 } u now
        = (true, some "max_total_tokens") ∧
      Constraints.is_exceeded { max_total_input_tokens := 0 } u now
        = (true, some "max_total_input_tokens") ∧
      Constraints.is_exceeded { max_total_output_tokens := 0 } u now
        = (true, some "max_total_output_tokens") ∧
      Constraints.is_exceeded { max_total_cached_tokens := 0 } u now
        = (true, some "max_total_cached_tokens")) := by
  constructor
  · intro c u now h
    rw [Constraints.is_exceeded, exceededScan_fst_iff]
    rcases h with h | h | h | h
    · exact ⟨(c.max_total_tokens, (u.total_tokens : ℚ), "max_total_tokens"),
        by simp [Constraints.checks], by simp [h]⟩
    · exact ⟨(c.max_total_input_tokens, (u.input_tokens : ℚ), "max_total_input_tokens"),
        by simp [Constraints.checks], by simp [h]⟩
    · exact ⟨(c.max_total_output_tokens, (u.output_tokens : ℚ), "max_total_output_tokens"),
        by simp [Constraints.checks], by simp [h]⟩
    · exact ⟨(c.max_total_cached_tokens, (u.cached_tokens : ℚ), "max_total_cached_tokens"),
        by simp [Constraints.checks], by simp [h]⟩
  · intro u now
    refine ⟨?_, ?_, ?_, ?_⟩ <;>
      simp [Constraints.is_exceeded, Constraints.checks, exceededScan]

/-- Witness for C10: `max_total_tokens = 0` trips on a zero-token usage. -/
theorem c10_zero_token_limit_is_active_witness :
    (Constraints.is_exceeded { max_total_tokens := 0 } {} 0).1 = true :=
  c10_zero_token_limit_is_active.1 { max_total_tokens := 0 } {} 0 (Or.inl rfl)

/-! ## Lemmas about the normal execution loop -/

theorem processBlock_ok_shape (b : Block) (step : Nat)
    (ctx ctx2 : BlockExecutionContext) (now : ℚ)
    (h : processBlock b step ctx now = .ok ctx2) :
    ∃ out,
      ctx2.accumulated_state = dictUpdate ctx.accumulated_state out ∧
      ctx2.trace = ctx.trace ++
        [{ block_type := b.block_type, input := ctx.accumulated_state,
           output := some out,
           accumulated_state := some (dictUpdate ctx.accumulated_state out),
           execution_time := some 0 }] ∧
      ctx2.trace_id = ctx.trace_id := by
  cases hr : b.run ctx.accumulated_state with
  | error e => simp [processBlock, hr] at h
  | ok result0 =>
    cases hu : extractUsage result0 ctx.usage now with
    | error e => simp [processBlock, hr, hu] at h
    | ok ru =>
      cases hv : validateOutput b ru.1 with
      | error e => simp [processBlock, hr, hu, hv] at h
      | ok u =>
        simp only [processBlock, hr, hu, hv, Except.ok.injEq] at h
        subst h
        exact ⟨ru.1, rfl, rfl, rfl⟩

theorem chained_snoc {a fin : Dict} {tr : List TraceEntry} (e : TraceEntry)
    (out : Dict) (h : Chained a tr fin) (hin : e.input = fin)
    (hout : e.output = some out)
    (hacc : e.accumulated_state = some (dictUpdate fin out)) :
    Chained a (tr ++ [e]) (dictUpdate fin out) := by
  induction tr generalizing a with
  | nil =>
      simp only [Chained] at h
      subst h
      exact ⟨hin, out, hout, hacc, rfl⟩
  | cons t ts ih =>
      obtain ⟨h1, o, h2, h3, h4⟩ := h
      exact ⟨h1, o, h2, h3, ih h4⟩

theorem chained_head_input {a fin : Dict} {tr : List TraceEntry}
    (h : Chained a tr fin) (hlen : 0 < tr.length) :
    (tr.get ⟨0, hlen⟩).input = a := by
  cases tr with
  | nil => simp at hlen
  | cons e rest => exact h.1

theorem chained_adjacent {a fin : Dict} {tr : List TraceEntry}
    (h : Chained a tr fin) :
    ∀ i (hi : i + 1 < tr.length),
      (tr.get ⟨i, Nat.lt_of_succ_lt hi⟩).accumulated_state
        = some ((tr.get ⟨i + 1, hi⟩).input) := by
  induction tr generalizing a with
  | nil => intro i hi; simp at hi
  | cons e rest ih =>
      intro i hi
      obtain ⟨h1, out, h2, h3, h4⟩ := h
      cases i with
      | zero =>
          have hr : 0 < rest.length := by simpa using Nat.lt_of_succ_lt_succ hi
          simpa [h3] using (chained_head_input h4 hr).symm
      | succ j =>
          exact ih h4 j (by simpa using Nat.lt_of_succ_lt_succ hi)

theorem chained_entry_shape {a fin : Dict} {tr : List TraceEntry}
    (h : Chained a tr fin) :
    ∀ i (hi : i < tr.length),
      ∃ out, (tr.get ⟨i, hi⟩).output = some out ∧
        (tr.get ⟨i, hi⟩).accumulated_state
          = some (dictUpdate ((tr.get ⟨i, hi⟩).input) out) := by
  induction tr generalizing a with
  | nil => intro i hi; simp at hi
  | cons e rest ih =>
      intro i hi
      obtain ⟨h1, out, h2, h3, h4⟩ := h
      cases i with
      | zero =>
          refine ⟨out, h2, ?_⟩
          show e.accumulated_state = some (dictUpdate e.input out)
          rw [h3, h1]
      | succ j => exact ih h4 j (Nat.lt_of_succ_lt_succ hi)

theorem runBlocks_inv (blocks : List Block) (step : Nat)
    (ctx ctx2 : BlockExecutionContext) (now : ℚ) (a : Dict)
    (hrun : runBlocks blocks step ctx now = .ok ctx2)
    (hch : Chained a ctx.trace ctx.accumulated_state) :
    Chained a ctx2.trace ctx2.accumulated_state ∧
    ctx2.trace.length = ctx.trace.length + blocks.length ∧
    ctx2.trace_id = ctx.trace_id := by
  induction blocks generalizing step ctx with
  | nil =>
      simp only [runBlocks, Except.ok.injEq] at hrun
      subst hrun
      exact ⟨hch, by simp, rfl⟩
  | cons b rest ih =>
      simp only [runBlocks] at hrun
      split at hrun
      · exact absurd hrun (by simp)
      · rename_i cmid hp
        obtain ⟨out, hacc, htr, hid⟩ := processBlock_ok_shape _ _ _ _ _ hp
        have hch2 : Chained a cmid.trace cmid.accumulated_state := by
          rw [htr, hacc]
          exact chained_snoc _ out hch rfl rfl rfl
        obtain ⟨H1, H2, H3⟩ := ih (step + 1) cmid hrun hch2
        refine ⟨H1, ?_, H3.trans hid⟩
        rw [H2, htr]
        simp only [List.length_append, List.length_cons, List.length_nil]
        omega

theorem runBlocks_trace_id (blocks : List Block) (step : Nat)
    (ctx ctx2 : BlockExecutionContext) (now : ℚ)
    (hrun : runBlocks blocks step ctx now = .ok ctx2) :
    ctx2.trace_id = ctx.trace_id := by
  induction blocks generalizing step ctx with
  | nil =>
      simp only [runBlocks, Except.ok.injEq] at hrun
      subst hrun; rfl
  | cons b rest ih =>
      simp only [runBlocks] at hrun
      split at hrun
      · exact absurd hrun (by simp)
      · rename_i cmid hp
        obtain ⟨_, _, _, hid⟩ := processBlock_ok_shape _ _ _ _ _ hp
        exact (ih (step + 1) cmid hrun).trans hid

theorem mkNormalContext_ok (initial : Dict) (freshId : String) (now : ℚ)
    (c : BlockExecutionContext)
    (h : mkNormalContext initial freshId now = .ok c) :
    c.accumulated_state = initial ∧ c.trace = [] ∧
    contextTraceId initial freshId = .ok c.trace_id := by
  simp only [mkNormalContext] at h
  split at h
  · exact absurd h (by simp)
  · rename_i tid htid
    simp only [Except.ok.injEq] at h
    subst h
    exact ⟨rfl, rfl, htid⟩

theorem runBlocks_append (l1 l2 : List Block) (step : Nat)
    (ctx : BlockExecutionContext) (now : ℚ) :
    runBlocks (l1 ++ l2) step ctx now =
      match runBlocks l1 step ctx now with
      | .error e => .error e
      | .ok c => runBlocks l2 (step + l1.length) c now := by
  induction l1 generalizing step ctx with
  | nil => simp [runBlocks]
  | cons b rest ih =>
      simp only [List.cons_append, runBlocks]
      cases hp : processBlock b step ctx now with
      | error e => simp
      | ok cmid =>
          have harith : step + (b :: rest).length = step + 1 + rest.length := by
            simp only [List.length_cons]; omega
          rw [harith]
          exact ih (step + 1) cmid

/-! ## Claim theorems for the normal execution loop -/

/-- C4: a normal execution on which no error occurred (no block raised)
returns exactly one `ExecutionResult` — the return type of the normal path
is a single result, never a list — whose trace has one entry per block;
`trace[0].input` is the initial data, each `trace[i].accumulated_state` is
the snapshot obtained by merging entry `i`'s output into its input, and
`trace[i+1].input` equals `trace[i].accumulated_state`. -/
theorem c4_normal_trace_structure (blocks : List Block) (initial : Dict)
    (freshId : String) (now : ℚ) (r : ExecutionResult)
    (hexec : executeNormalPipeline blocks initial freshId now = Except.ok r) :
    r.trace.length = blocks.length ∧
    (∀ (h0 : 0 < r.trace.length), (r.trace.get ⟨0, h0⟩).input = initial) ∧
    (∀ i (hi : i + 1 < r.trace.length),
      (r.trace.get ⟨i, Nat.lt_of_succ_lt hi⟩).accumulated_state
        = some ((r.trace.get ⟨i + 1, hi⟩).input)) ∧
    (∀ i (hi : i < r.trace.length),
      ∃ out, (r.trace.get ⟨i, hi⟩).output = some out ∧
        (r.trace.get ⟨i, hi⟩).accumulated_state
          = some (dictUpdate ((r.trace.get ⟨i, hi⟩).input) out)) := by
  simp only [executeNormalPipeline] at hexec
  split at hexec
  · exact absurd hexec (by simp)
  · rename_i ctx0 hmk
    split at hexec
    · exact absurd hexec (by simp)
    · rename_i ctx hrun
      simp only [Except.ok.injEq] at hexec
      subst hexec
      obtain ⟨hacc0, htr0, -⟩ := mkNormalContext_ok _ _ _ _ hmk
      have hch0 : Chained initial ctx0.trace ctx0.accumulated_state := by
        rw [hacc0, htr0]; rfl
      obtain ⟨hch, hlen, -⟩ := runBlocks_inv _ _ _ _ _ _ hrun hch0
      refine ⟨?_, ?_, ?_, ?_⟩
      · simpa [htr0] using hlen
      · intro h0; exact chained_head_input hch h0
      · intro i hi; exact chained_adjacent hch i hi
      · intro i hi; exact chained_entry_shape hch i hi

/-- Witness for C4: a one-block pipeline produces a one-entry trace. -/
theorem c4_normal_trace_structure_witness :
    executeNormalPipeline [c4Block] [] "t" 0 = Except.ok c4Expected ∧
    c4Expected.trace.length = 1 :=
  ⟨rfl, (c4_normal_trace_structure [c4Block] [] "t" 0 c4Expected rfl).1⟩

/-- Counterexample for C7: with `{"trace_id": "abc"}` in the initial data,
the normal path's context takes its trace id from the initial data
(`initial_data.get("trace_id", str(uuid.uuid4()))`), so the returned
`ExecutionResult.trace_id` equals the initial value `"abc"`, not the
freshly generated id. -/
theorem c7_counterexample :
    (executeNormalPipeline [c7Block] [("trace_id", PyVal.vStr "abc")]
        "fresh-uuid" 0).map (fun r => r.trace_id) = Except.ok "abc" ∧
    "abc" ≠ "fresh-uuid" :=
  ⟨rfl, by decide⟩

/-- C7 amended: the normal path's trace id is
`initial_data.get("trace_id", fresh_uuid)`: it equals the fresh uuid
exactly when the initial data has no `trace_id` key (so two executions of
such data receive their distinct fresh uuids), and it equals the initial
data's string value when that key is present. -/
theorem c7_trace_id_from_initial_or_fresh :
    (∀ (blocks : List Block) (initial : Dict) (freshId : String) (now : ℚ)
       (r : ExecutionResult),
      dictGet initial "trace_id" = none →
      executeNormalPipeline blocks initial freshId now = Except.ok r →
      r.trace_id = freshId) ∧
    (∀ (blocks : List Block) (initial : Dict) (freshId s : String) (now : ℚ)
       (r : ExecutionResult),
      dictGet initial "trace_id" = some (PyVal.vStr s) →
      executeNormalPipeline blocks initial freshId now = Except.ok r →
      r.trace_id = s) := by
  constructor
  · intro blocks initial freshId now r hget hexec
    simp only [executeNormalPipeline] at hexec
    split at hexec
    · exact absurd hexec (by simp)
    · rename_i ctx0 hmk
      split at hexec
      · exact absurd hexec (by simp)
      · rename_i ctx hrun
        simp only [Except.ok.injEq] at hexec
        subst hexec
        obtain ⟨-, -, htid⟩ := mkNormalContext_ok _ _ _ _ hmk
        simp only [contextTraceId, hget, Except.ok.injEq] at htid
        show ctx.trace_id = freshId
        rw [runBlocks_trace_id _ _ _ _ _ hrun]
        exact htid.symm
  · intro blocks initial freshId s now r hget hexec
    simp only [executeNormalPipeline] at hexec
    split at hexec
    · exact absurd hexec (by simp)
    · rename_i ctx0 hmk
      split at hexec
      · exact absurd hexec (by simp)
      · rename_i ctx hrun
        simp only [Except.ok.injEq] at hexec
        subst hexec
        obtain ⟨-, -, htid⟩ := mkNormalContext_ok _ _ _ _ hmk
        simp only [contextTraceId, hget, Except.ok.injEq] at htid
        show ctx.trace_id = s
        rw [runBlocks_trace_id _ _ _ _ _ hrun]
        exact htid.symm

/-- Witness for C7 amended: initial data without a `trace_id` key yields
the fresh id. -/
theorem c7_trace_id_from_initial_or_fresh_witness :
    executeNormalPipeline [c7Block] [] "f" 0 = Except.ok c7Expected ∧
    c7Expected.trace_id = "f" :=
  ⟨rfl, c7_trace_id_from_initial_or_fresh.1 [c7Block] [] "f" 0 c7Expected rfl rfl⟩

/-- Counterexample for C1: a block that both violates its declared outputs
(declares `["x"]`, returns key `"y"`) and returns the non-mapping `_usage`
value `42` does not produce a `ValidationError`: the `TypeError` from
`Usage(**42)` escapes the `except (ValueError, KeyError)` handler and is
wrapped in a `BlockExecutionError`, so the output-subset violation is
reported as a wrapped `BlockExecutionError` instead. -/
theorem c1_counterexample :
    executeNormalPipeline [c1BadUsageBlock] [] "t" 0
      = Except.error (PyError.blockExecutionError
          (blockFailMsg "TextGenerator" 1 "argument after ** must be a mapping")
          "TextGenerator" 1 "argument after ** must be a mapping" []) := rfl

/-- C1 amended: output validation accepts exactly the returned key sets
that are subsets of the declared outputs (or anything under the `"*"`
wildcard); and whenever a reached block's returned mapping — after the
`_usage` extraction step completes — has a key outside the declared
outputs, the whole normal execution fails with that `ValidationError`
unchanged (never wrapped in `BlockExecutionError`), carrying the offending
extra keys in its detail. -/
theorem c1_output_validation_and_propagation :
    (∀ (b : Block) (result : Dict),
      validateOutput b result = Except.ok () ↔
        ("*" ∈ b.outputs ∨ ∀ k ∈ dictKeys result, k ∈ b.outputs)) ∧
    (∀ (pre post : List Block) (b : Block) (initial res popped : Dict)
       (freshId : String) (now : ℚ) (ctx0 ctx1 : BlockExecutionContext)
       (u2 : Usage),
      mkNormalContext initial freshId now = Except.ok ctx0 →
      runBlocks pre 1 ctx0 now = Except.ok ctx1 →
      b.run ctx1.accumulated_state = Except.ok res →
      extractUsage res ctx1.usage now = Except.ok (popped, u2) →
      "*" ∉ b.outputs →
      (∃ k ∈ dictKeys popped, k ∉ b.outputs) →
      executeNormalPipeline (pre ++ b :: post) initial freshId now
        = Except.error (PyError.validationError (validationMsg b)
            (validationDetailOf b popped))) := by
  constructor
  · intro b result
    by_cases hstar : "*" ∈ b.outputs
    · simp [validateOutput, hstar]
    · by_cases hall : ∀ k ∈ dictKeys result, k ∈ b.outputs
      · simp [validateOutput, hstar, hall]
      · simp [validateOutput, hstar, hall]
  · intro pre post b initial res popped freshId now ctx0 ctx1 u2
      hmk hpre hrunb hex hstar hviol
    have hall : ¬ ∀ k ∈ dictKeys popped, k ∈ b.outputs := by
      obtain ⟨k, hk, hkn⟩ := hviol
      exact fun hfa => hkn (hfa k hk)
    have hval : validateOutput b popped
        = Except.error (.validationError (validationMsg b) (validationDetailOf b popped)) := by
      simp [validateOutput, hstar, hall]
    have hproc : processBlock b (1 + pre.length) ctx1 now
        = Except.error (.validationError (validationMsg b) (validationDetailOf b popped)) := by
      simp [processBlock, hrunb, hex, hval, wrapBlockError]
    simp only [executeNormalPipeline, hmk, runBlocks_append, hpre, runBlocks, hproc]

/-- Witness for C1 amended: a one-block pipeline whose block declares
`["x"]` but returns `{"y": 2}` fails with the unwrapped `ValidationError`
carrying `extra_fields = ["y"]`. -/
theorem c1_output_validation_and_propagation_witness :
    executeNormalPipeline [c1ViolBlock] [] "t" 0
      = Except.error (PyError.validationError (validationMsg c1ViolBlock)
          (validationDetailOf c1ViolBlock [("y", PyVal.vInt 2)])) ∧
    (validationDetailOf c1ViolBlock [("y", PyVal.vInt 2)]).extra_fields = ["y"] :=
  ⟨c1_output_validation_and_propagation.2 [] [] c1ViolBlock [] [("y", PyVal.vInt 2)]
      [("y", PyVal.vInt 2)] "t" 0 c1Ctx0 c1Ctx0 { start_time := 0 }
      rfl rfl rfl rfl (by decide) ⟨"y", by simp [dictKeys], by decide⟩,
   rfl⟩

/-- C6: a malformed `_usage` is fatal when it is not a mapping — the
`TypeError` raised by the `**` unpacking in `Usage(**result.pop("_usage"))`
is not caught by the `except (ValueError, KeyError)` handler, so it is
wrapped in a `BlockExecutionError` and the execution fails, contradicting
the claim (and the source's own "log but don't fail" comment).  A
malformed `_usage` that is a mapping (here `{"input_tokens": None}`)
raises pydantic's `ValueError`, which the handler does catch: it is
discarded and the execution succeeds. -/
theorem c6_malformed_usage_fatality :
    executeNormalPipeline [c6Block] [] "t" 0
      = Except.error (PyError.blockExecutionError
          (blockFailMsg "TextGenerator" 1 "argument after ** must be a mapping")
          "TextGenerator" 1 "argument after ** must be a mapping" []) ∧
    executeNormalPipeline [c6DictBadBlock] [] "t" 0 = Except.ok c6OkExpected :=
  ⟨rfl, rfl⟩

/-! ## Lemmas about `Nat`-keyed association lists -/

theorem assocGet_mem {α : Type} (l : List (Nat × α)) (k : Nat) (v : α)
    (h : assocGet l k = some v) : (k, v) ∈ l := by
  induction l with
  | nil => simp [assocGet] at h
  | cons p rest ih =>
      by_cases hk : p.1 = k
      · simp only [assocGet, if_pos hk, Option.some.injEq] at h
        have hpkv : p = (k, v) := by
          cases p with
          | mk a b => simp only [Prod.mk.injEq]; exact ⟨hk, h⟩
        rw [← hpkv]
        exact List.mem_cons_self p rest
      · simp only [assocGet, if_neg hk] at h
        exact List.mem_cons_of_mem p (ih h)

theorem assocSet_mem {α : Type} {l : List (Nat × α)} {k : Nat} {v : α}
    {p : Nat × α} (h : p ∈ assocSet l k v) :
    p = (k, v) ∨ (p ∈ l ∧ p.1 ≠ k) := by
  unfold assocSet at h
  split at h
  · obtain ⟨p0, hp0, heq⟩ := List.mem_map.mp h
    by_cases hk : p0.1 = k
    · left; rw [← heq]; simp [hk]
    · right
      rw [← heq]
      simp only [hk, if_false]
      exact ⟨hp0, hk⟩
  · rename_i hany
    rcases List.mem_append.mp h with h1 | h2
    · right
      refine ⟨h1, fun hpk => ?_⟩
      apply hany
      refine List.any_eq_true.mpr ⟨p, h1, ?_⟩
      simp [hpk]
    · left; simpa using h2

theorem assocSet_keys {α : Type} (l : List (Nat × α)) (k : Nat) (v : α) :
    (assocSet l k v).map (fun p => p.1) =
      if l.any (fun p => p.1 = k) then l.map (fun p => p.1)
      else l.map (fun p => p.1) ++ [k] := by
  unfold assocSet
  split
  · rw [List.map_map]
    apply List.map_congr_left
    intro p hp
    by_cases hk : p.1 = k <;> simp [Function.comp, hk]
  · simp

theorem assocGet_replace_self {α : Type} (l : List (Nat × α)) (k : Nat) (v : α)
    (hany : l.any (fun p => p.1 = k) = true) :
    assocGet (l.map (fun p => if p.1 = k then (k, v) else p)) k = some v := by
  induction l with
  | nil => simp at hany
  | cons p rest ih =>
      by_cases hk : p.1 = k
      · simp [assocGet, hk]
      · rw [List.map_cons, if_neg hk]
        simp only [assocGet, if_neg hk]
        refine ih ?_
        simpa [List.any_cons, hk] using hany

theorem assocGet_append_self {α : Type} (l : List (Nat × α)) (k : Nat) (v : α)
    (hnone : l.any (fun p => p.1 = k) = false) :
    assocGet (l ++ [(k, v)]) k = some v := by
  induction l with
  | nil => simp [assocGet]
  | cons p rest ih =>
      have hk : ¬ p.1 = k := by
        intro hpk
        simp [List.any_cons, hpk] at hnone
      rw [List.cons_append]
      simp only [assocGet, if_neg hk]
      refine ih ?_
      simpa [List.any_cons, hk] using hnone

theorem assocGet_assocSet_self {α : Type} (l : List (Nat × α)) (k : Nat) (v : α) :
    assocGet (assocSet l k v) k = some v := by
  unfold assocSet
  split
  · rename_i hany
    exact assocGet_replace_self l k v hany
  · rename_i hany
    exact assocGet_append_self l k v (Bool.eq_false_iff.mpr hany)

theorem assocGet_replace_ne {α : Type} (l : List (Nat × α)) (k km : Nat) (v : α)
    (hne : k ≠ km) :
    assocGet (l.map (fun p => if p.1 = km then (km, v) else p)) k = assocGet l k := by
  induction l with
  | nil => simp
  | cons p rest ih =>
      by_cases hk : p.1 = km
      · rw [List.map_cons, if_pos hk]
        have h1 : ¬ km = k := fun h => hne h.symm
        have h2 : ¬ p.1 = k := by rw [hk]; exact h1
        simp only [assocGet, if_neg h1, if_neg h2]
        exact ih
      · rw [List.map_cons, if_neg hk]
        by_cases h2 : p.1 = k
        · simp [assocGet, h2]
        · simp only [assocGet, if_neg h2]
          exact ih

theorem assocGet_append_ne {α : Type} (l : List (Nat × α)) (k km : Nat) (v : α)
    (hne : k ≠ km) :
    assocGet (l ++ [(km, v)]) k = assocGet l k := by
  induction l with
  | nil =>
      rw [List.nil_append]
      have h1 : ¬ km = k := fun h => hne h.symm
      simp [assocGet, h1]
  | cons p rest ih =>
      rw [List.cons_append]
      by_cases h2 : p.1 = k
      · simp [assocGet, h2]
      · simp only [assocGet, if_neg h2]
        exact ih

theorem assocGet_assocSet_ne {α : Type} (l : List (Nat × α)) (k km : Nat) (v : α)
    (hne : k ≠ km) :
    assocGet (assocSet l km v) k = assocGet l k := by
  unfold assocSet
  split
  · exact assocGet_replace_ne l k km v hne
  · exact assocGet_append_ne l k km v hne

theorem nodup_key_inj {α : Type} {l : List (Nat × α)}
    (h : (l.map (fun p => p.1)).Nodup) {p1 p2 : Nat × α}
    (h1 : p1 ∈ l) (h2 : p2 ∈ l) (hk : p1.1 = p2.1) : p1 = p2 :=
  List.inj_on_of_nodup_map h h1 h2 hk

theorem nodup_assocSet {α : Type} (l : List (Nat × α)) (k : Nat) (v : α)
    (h : (l.map (fun p => p.1)).Nodup) :
    ((assocSet l k v).map (fun p => p.1)).Nodup := by
  rw [assocSet_keys]
  split
  · exact h
  · rename_i hany
    have hk : k ∉ l.map (fun p => p.1) := by
      intro hmem
      obtain ⟨p, hp, hpk⟩ := List.mem_map.mp hmem
      exact hany (List.any_eq_true.mpr ⟨p, hp, by simp [hpk]⟩)
    rw [List.nodup_append]
    exact ⟨h, List.nodup_singleton k, by
      intro a ha hb
      simp only [List.mem_singleton] at hb
      subst hb
      exact hk ha⟩

theorem nodup_assocRemove {α : Type} (l : List (Nat × α)) (k : Nat)
    (h : (l.map (fun p => p.1)).Nodup) :
    ((assocRemove l k).map (fun p => p.1)).Nodup :=
  ((List.filter_sublist l).map (fun p => p.1)).nodup h

/-! ## The single-non-terminal invariant of the job queue -/

/-- Replacing the entry for `jid` with a record of terminal status keeps
every non-terminal job pointed at by the (possibly cleared) active slot. -/
theorem nta_set_terminal (q : JobQueue) (jid : Nat) (j3 : JobRec)
    (active2 : Option Nat) (h1 : NonTerminalIsActive q)
    (hterm : isTerminalStatus j3.status = true)
    (hfall : q.active_job = some jid ∨ active2 = q.active_job) :
    ∀ p ∈ assocSet q.jobs jid j3, isTerminalStatus p.2.status = false →
      active2 = some p.1 := by
  intro p hp hnt
  rcases assocSet_mem hp with hpeq | ⟨hpold, hpk⟩
  · subst hpeq
    rw [hterm] at hnt
    exact absurd hnt (by simp)
  · have hpa := h1 p hpold hnt
    rcases hfall with hact | hunch
    · exfalso
      rw [hact] at hpa
      exact hpk ((Option.some.injEq _ _).mp hpa).symm
    · rw [hunch]; exact hpa

/-- Replacing the entry for the active job keeps every non-terminal job
pointed at by the unchanged active slot. -/
theorem nta_set_active (q : JobQueue) (jid : Nat) (j3 : JobRec)
    (h1 : NonTerminalIsActive q) (hact : q.active_job = some jid) :
    ∀ p ∈ assocSet q.jobs jid j3, isTerminalStatus p.2.status = false →
      q.active_job = some p.1 := by
  intro p hp hnt
  rcases assocSet_mem hp with hpeq | ⟨hpold, hpk⟩
  · subst hpeq; exact hact
  · exact h1 p hpold hnt

/-- Replacing the entry for `jid` with a record of the same status keeps
every non-terminal job pointed at by the unchanged active slot. -/
theorem nta_set_samestatus (q : JobQueue) (jid : Nat) (j j3 : JobRec)
    (h1 : NonTerminalIsActive q) (hget : assocGet q.jobs jid = some j)
    (hst : j3.status = j.status) :
    ∀ p ∈ assocSet q.jobs jid j3, isTerminalStatus p.2.status = false →
      q.active_job = some p.1 := by
  intro p hp hnt
  rcases assocSet_mem hp with hpeq | ⟨hpold, hpk⟩
  · subst hpeq
    refine h1 (jid, j) (assocGet_mem _ _ _ hget) ?_
    rw [hst] at hnt
    exact hnt
  · exact h1 p hpold hnt

/-- Removing the entry for `jid` keeps every remaining non-terminal job
pointed at by the (possibly cleared) active slot. -/
theorem nta_remove (q : JobQueue) (jid : Nat) (active2 : Option Nat)
    (h1 : NonTerminalIsActive q)
    (hfall : q.active_job = some jid ∨ active2 = q.active_job) :
    ∀ p ∈ assocRemove q.jobs jid, isTerminalStatus p.2.status = false →
      active2 = some p.1 := by
  intro p hp hnt
  obtain ⟨hpold, hpk0⟩ := List.mem_filter.mp hp
  have hpk : p.1 ≠ jid := by simpa using hpk0
  have hpa := h1 p hpold hnt
  rcases hfall with hact | hunch
  · exfalso
    rw [hact] at hpa
    exact hpk ((Option.some.injEq _ _).mp hpa).symm
  · rw [hunch]; exact hpa

theorem inv2_step (q : JobQueue) (op : QOp) (hop : SafeOp q op)
    (h1 : NonTerminalIsActive q) (h2 : (q.jobs.map (fun p => p.1)).Nodup) :
    NonTerminalIsActive (stepOp q op) ∧
    ((stepOp q op).jobs.map (fun p => p.1)).Nodup := by
  cases op with
  | createOp jid pid ts st now t =>
      cases hact : q.active_job with
      | some a =>
          simp only [stepOp, JobQueue.create_job, hact]
          exact ⟨h1, h2⟩
      | none =>
          simp only [stepOp, JobQueue.create_job, hact]
          refine ⟨?_, nodup_assocSet _ _ _ h2⟩
          intro p hp hnt
          rcases assocSet_mem hp with hpeq | ⟨hpold, hpk⟩
          · rw [hpeq]
          · exfalso
            have := h1 p hpold hnt
            rw [hact] at this
            exact Option.noConfusion this
  | updateOp jid u now =>
      cases hget : assocGet q.jobs jid with
      | none =>
          simp only [stepOp, JobQueue.update_job, hget]
          exact ⟨h1, h2⟩
      | some j =>
          cases hus : u.status with
          | none =>
              simp only [stepOp, JobQueue.update_job, hget, hus]
              refine ⟨?_, nodup_assocSet _ _ _ h2⟩
              refine nta_set_samestatus q jid j _ h1 hget ?_
              split <;> rfl
          | some s =>
              cases hterm : isTerminalStatus s with
              | true =>
                  simp only [stepOp, JobQueue.update_job, hget, hus]
                  refine ⟨?_, nodup_assocSet _ _ _ h2⟩
                  refine nta_set_terminal q jid _ _ h1 ?_ ?_
                  · show isTerminalStatus
                      (if _ ∧ _ then _ else _ : JobRec).status = true
                    split <;> exact hterm
                  · by_cases hact : q.active_job = some jid
                    · exact Or.inl hact
                    · exact Or.inr (if_neg (fun hand => hact hand.2))
              | false =>
                  have hsafe : q.active_job = some jid := by
                    simp only [SafeOp, hus] at hop
                    rcases hop with h | h
                    · rw [hterm] at h
                      exact absurd h (by simp)
                    · exact h
                  simp only [stepOp, JobQueue.update_job, hget, hus]
                  refine ⟨?_, nodup_assocSet _ _ _ h2⟩
                  have hcond : ¬ ((isTerminalStatus s = true) ∧
                      q.active_job = some jid) := fun hand => by
                    rw [hterm] at hand
                    exact absurd hand.1 (by simp)
                  show ∀ p ∈ assocSet q.jobs jid _,
                      isTerminalStatus p.2.status = false →
                      (if _ ∧ _ then none else q.active_job) = some p.1
                  rw [if_neg hcond]
                  exact nta_set_active q jid _ h1 hsafe
  | cancelOp jid now =>
      cases hget : assocGet q.jobs jid with
      | none =>
          simp only [stepOp, JobQueue.cancel_job, hget]
          exact ⟨h1, h2⟩
      | some j =>
          simp only [stepOp, JobQueue.cancel_job, hget]
          refine ⟨?_, nodup_assocSet _ _ _ h2⟩
          refine nta_set_terminal q jid _ _ h1 ?_ ?_
          · rfl
          · by_cases hact : q.active_job = some jid
            · exact Or.inl hact
            · exact Or.inr (if_neg hact)
  | deleteOp jid =>
      cases hget : assocGet q.jobs jid with
      | none =>
          simp only [stepOp, JobQueue.delete_job, hget]
          exact ⟨h1, h2⟩
      | some j =>
          simp only [stepOp, JobQueue.delete_job, hget]
          refine ⟨?_, nodup_assocRemove _ _ h2⟩
          refine nta_remove q jid _ h1 ?_
          by_cases hact : q.active_job = some jid
          · exact Or.inl hact
          · exact Or.inr (if_neg hact)

theorem safeOps_inv (q : JobQueue) (ops : List QOp) (hs : SafeOps q ops) :
    NonTerminalIsActive q → (q.jobs.map (fun p => p.1)).Nodup →
    NonTerminalIsActive (runOps q ops) ∧
    ((runOps q ops).jobs.map (fun p => p.1)).Nodup := by
  induction hs with
  | nil q => exact fun h1 h2 => ⟨h1, h2⟩
  | cons q op ops hop hrest ih =>
      intro h1 h2
      have hstep := inv2_step q op hop h1 h2
      exact ih hstep.1 hstep.2

/-- Counterexample for C2: create job 1, complete it, set it back to
`running` via `update_job` (the active slot is empty, so nothing stops
this), then create job 2 — now two jobs are simultaneously `running`. -/
theorem c2_counterexample :
    ((runOps {} c2Ops).jobs.map (fun p => (p.1, p.2.status))
      = [(1, "running"), (2, "running")]) ∧
    ¬ AtMostOneNonTerminal (runOps {} c2Ops) := by
  refine ⟨rfl, ?_⟩
  simp only [AtMostOneNonTerminal]
  decide

/-- C2 amended: across sequences of job-queue operations in which
`update_job` assigns a non-terminal status only to the currently active
job (the engine's own call sites move inactive jobs only to terminal
statuses), at most one job in the queue has a non-terminal status.
Unconditionally, `create_job` fails with the "already running" error
whenever the active slot is set, and on success it records the job with
`started_at = now` and the given status, and makes it the active job. -/
theorem c2_admission_and_invariant :
    (∀ ops : List QOp, SafeOps {} ops → AtMostOneNonTerminal (runOps {} ops)) ∧
    (∀ (q : JobQueue) (a jid pid ts : Nat) (st : String) (now : Nat) (t : ℚ),
      q.active_job = some a →
      q.create_job jid pid ts st now t
        = Except.error ("Job " ++ toString a ++ " is already running. Cancel it first.")) ∧
    (∀ (q q2 : JobQueue) (jid pid ts : Nat) (st : String) (now : Nat) (t : ℚ),
      q.create_job jid pid ts st now t = Except.ok q2 →
      q2.active_job = some jid ∧
      ∃ j : JobRec, assocGet q2.jobs jid = some j ∧
        j.started_at = now ∧ j.status = st ∧ j.id = jid ∧ j.pipeline_id = pid) := by
  refine ⟨?_, ?_, ?_⟩
  · intro ops hs
    have hemp1 : NonTerminalIsActive {} := by
      intro p hp hnt
      exact absurd hp (List.not_mem_nil p)
    have hemp2 : ((({} : JobQueue)).jobs.map (fun p => p.1)).Nodup := by
      simp
    obtain ⟨ha, hn⟩ := safeOps_inv {} ops hs hemp1 hemp2
    intro p1 hp1 p2 hp2 hn1 hn2
    have e1 := ha p1 hp1 hn1
    have e2 := ha p2 hp2 hn2
    have hk : p1.1 = p2.1 := by
      rw [e1] at e2
      exact (Option.some.injEq _ _).mp e2
    exact nodup_key_inj hn hp1 hp2 hk
  · intro q a jid pid ts st now t hact
    simp [JobQueue.create_job, hact]
  · intro q q2 jid pid ts st now t h
    cases hact : q.active_job with
    | some a => simp [JobQueue.create_job, hact] at h
    | none =>
        simp only [JobQueue.create_job, hact, Except.ok.injEq] at h
        subst h
        exact ⟨rfl, _, assocGet_assocSet_self _ _ _, rfl, rfl, rfl, rfl⟩

/-- Witness for C2 amended: a safe sequence keeps the invariant; a second
create while job 1 is active raises "already running". -/
theorem c2_admission_and_invariant_witness :
    AtMostOneNonTerminal (runOps {} c8Ops) ∧
    JobQueue.create_job (runOps {} c9Ops) 2 7 5 "running" 1 1
      = Except.error "Job 1 is already running. Cancel it first." ∧
    (runOps {} c9Ops).active_job = some 1 :=
  ⟨c2_admission_and_invariant.1 c8Ops
      (SafeOps.cons _ _ _ True.intro
        (SafeOps.cons _ _ _ (Or.inl rfl)
          (SafeOps.cons _ _ _ True.intro (SafeOps.nil _)))),
   c2_admission_and_invariant.2.1 (runOps {} c9Ops) 1 2 7 5 "running" 1 1 rfl,
   (c2_admission_and_invariant.2.2 {} (runOps {} c9Ops) 1 7 5 "running" 0 0 rfl).1⟩

/-! ## History-order lemmas for the job queue -/

theorem dequeAppend10_sublist (l : List Nat) (x : Nat) :
    List.Sublist (dequeAppend10 l x) (l ++ [x]) := by
  unfold dequeAppend10
  split
  · exact (List.tail_sublist l).append_right [x]
  · exact List.Sublist.refl _

theorem dequeAppend10_len (l : List Nat) (x : Nat) (h : l.length ≤ 10) :
    (dequeAppend10 l x).length ≤ 10 := by
  unfold dequeAppend10
  split
  · rename_i hlen
    simp only [List.length_append, List.length_tail, List.length_singleton]
    omega
  · rename_i hlen
    simp only [List.length_append, List.length_singleton]
    omega

theorem createdIds_cons (op : QOp) (ops : List QOp) (pid : Nat) :
    createdIds (op :: ops) pid = createdIds [op] pid ++ createdIds ops pid := by
  cases op with
  | createOp jid p ts st now t =>
      simp only [createdIds, List.filterMap_cons, List.filterMap_nil]
      split <;> simp
  | updateOp jid u now => simp [createdIds, List.filterMap_cons]
  | cancelOp jid now => simp [createdIds, List.filterMap_cons]
  | deleteOp jid => simp [createdIds, List.filterMap_cons]

theorem histList_step_sub (q : JobQueue) (op : QOp) (pid : Nat) :
    List.Sublist ((stepOp q op).histList pid)
      (q.histList pid ++ createdIds [op] pid) := by
  cases op with
  | createOp jid p ts st now t =>
      cases hact : q.active_job with
      | some a =>
          simp only [stepOp, JobQueue.create_job, hact]
          exact List.sublist_append_left _ _
      | none =>
          by_cases hp : p = pid
          · subst hp
            have heq : (stepOp q (.createOp jid p ts st now t)).histList p
                = dequeAppend10 (q.histList p) jid := by
              simp [stepOp, JobQueue.create_job, hact, JobQueue.histList,
                assocGet_assocSet_self]
            rw [heq]
            have hcr : createdIds [QOp.createOp jid p ts st now t] p = [jid] := by
              simp [createdIds]
            rw [hcr]
            exact dequeAppend10_sublist _ _
          · have heq : (stepOp q (.createOp jid p ts st now t)).histList pid
                = q.histList pid := by
              simp only [stepOp, JobQueue.create_job, hact, JobQueue.histList]
              rw [assocGet_assocSet_ne _ _ _ _ (fun h => hp h.symm)]
            rw [heq]
            have hcr : createdIds [QOp.createOp jid p ts st now t] pid = [] := by
              simp [createdIds, hp]
            rw [hcr, List.append_nil]
  | updateOp jid u now =>
      have heq : (stepOp q (.updateOp jid u now)).histList pid = q.histList pid := by
        cases hg : assocGet q.jobs jid with
        | none => simp [stepOp, JobQueue.update_job, hg]
        | some j => simp [stepOp, JobQueue.update_job, hg, JobQueue.histList]
      rw [heq]
      have hcr : createdIds [QOp.updateOp jid u now] pid = [] := by
        simp [createdIds]
      rw [hcr, List.append_nil]
  | cancelOp jid now =>
      have heq : (stepOp q (.cancelOp jid now)).histList pid = q.histList pid := by
        cases hg : assocGet q.jobs jid with
        | none => simp [stepOp, JobQueue.cancel_job, hg]
        | some j => simp [stepOp, JobQueue.cancel_job, hg, JobQueue.histList]
      rw [heq]
      have hcr : createdIds [QOp.cancelOp jid now] pid = [] := by
        simp [createdIds]
      rw [hcr, List.append_nil]
  | deleteOp jid =>
      have hcr : createdIds [QOp.deleteOp jid] pid = [] := by
        simp [createdIds]
      rw [hcr, List.append_nil]
      cases hg : assocGet q.jobs jid with
      | none =>
          simp only [stepOp, JobQueue.delete_job, hg]
          exact List.Sublist.refl _
      | some j =>
          cases hh : assocGet q.history j.pipeline_id with
          | none =>
              simp only [stepOp, JobQueue.delete_job, hg, hh]
              exact List.Sublist.refl _
          | some h =>
              by_cases hmem : jid ∈ h
              · by_cases hpl : j.pipeline_id = pid
                · subst hpl
                  have heq : (stepOp q (.deleteOp jid)).histList j.pipeline_id
                      = h.filter (fun x => x ≠ jid) := by
                    simp [stepOp, JobQueue.delete_job, hg, hh, hmem,
                      JobQueue.histList, assocGet_assocSet_self]
                  rw [heq]
                  have hq : q.histList j.pipeline_id = h := by
                    simp [JobQueue.histList, hh]
                  rw [hq]
                  exact List.filter_sublist h
                · have hcont : h.contains jid = true := by simpa using hmem
                  have heq : (stepOp q (.deleteOp jid)).histList pid
                      = q.histList pid := by
                    simp only [stepOp, JobQueue.delete_job, hg, hh,
                      JobQueue.histList]
                    rw [if_pos hcont]
                    rw [assocGet_assocSet_ne _ _ _ _ (fun hx => hpl hx.symm)]
                  rw [heq]
              · have hcont : ¬ (h.contains jid = true) := fun hc =>
                  hmem (by simpa using hc)
                have heq : (stepOp q (.deleteOp jid)).histList pid
                    = q.histList pid := by
                  simp only [stepOp, JobQueue.delete_job, hg, hh,
                    JobQueue.histList]
                  rw [if_neg hcont]
                rw [heq]

theorem runOps_hist_sub (ops : List QOp) (q : JobQueue) (pid : Nat) :
    List.Sublist ((runOps q ops).histList pid)
      (q.histList pid ++ createdIds ops pid) := by
  induction ops generalizing q with
  | nil =>
      simp only [runOps, List.foldl_nil, createdIds, List.filterMap_nil,
        List.append_nil]
      exact List.Sublist.refl _
  | cons op rest ih =>
      have h1 := ih (stepOp q op)
      have h2 := (histList_step_sub q op pid).append_right (createdIds rest pid)
      have h3 := h1.trans h2
      rw [createdIds_cons, ← List.append_assoc]
      exact h3

theorem histLen_step (q : JobQueue) (op : QOp)
    (hq : ∀ pid, (q.histList pid).length ≤ 10) :
    ∀ pid, ((stepOp q op).histList pid).length ≤ 10 := by
  intro pid
  cases op with
  | createOp jid p ts st now t =>
      cases hact : q.active_job with
      | some a =>
          simp only [stepOp, JobQueue.create_job, hact]
          exact hq pid
      | none =>
          by_cases hp : p = pid
          · subst hp
            have heq : (stepOp q (.createOp jid p ts st now t)).histList p
                = dequeAppend10 (q.histList p) jid := by
              simp [stepOp, JobQueue.create_job, hact, JobQueue.histList,
                assocGet_assocSet_self]
            rw [heq]
            exact dequeAppend10_len _ _ (hq p)
          · have heq : (stepOp q (.createOp jid p ts st now t)).histList pid
                = q.histList pid := by
              simp only [stepOp, JobQueue.create_job, hact, JobQueue.histList]
              rw [assocGet_assocSet_ne _ _ _ _ (fun h => hp h.symm)]
            rw [heq]
            exact hq pid
  | updateOp jid u now =>
      have heq : (stepOp q (.updateOp jid u now)).histList pid = q.histList pid := by
        cases hg : assocGet q.jobs jid with
        | none => simp [stepOp, JobQueue.update_job, hg]
        | some j => simp [stepOp, JobQueue.update_job, hg, JobQueue.histList]
      rw [heq]
      exact hq pid
  | cancelOp jid now =>
      have heq : (stepOp q (.cancelOp jid now)).histList pid = q.histList pid := by
        cases hg : assocGet q.jobs jid with
        | none => simp [stepOp, JobQueue.cancel_job, hg]
        | some j => simp [stepOp, JobQueue.cancel_job, hg, JobQueue.histList]
      rw [heq]
      exact hq pid
  | deleteOp jid =>
      have hsub := histList_step_sub q (.deleteOp jid) pid
      have hcr : createdIds [QOp.deleteOp jid] pid = [] := by
        simp [createdIds]
      rw [hcr, List.append_nil] at hsub
      exact le_trans hsub.length_le (hq pid)

theorem histLen_runOps (ops : List QOp) (pid : Nat) :
    ((runOps {} ops).histList pid).length ≤ 10 := by
  have gen : ∀ (l : List QOp) (q : JobQueue),
      (∀ p, (q.histList p).length ≤ 10) →
      ∀ p, ((runOps q l).histList p).length ≤ 10 := by
    intro l
    induction l with
    | nil => intro q hq p; exact hq p
    | cons op rest ih =>
        intro q hq p
        exact ih (stepOp q op) (histLen_step q op hq) p
  refine gen ops {} ?_ pid
  intro p
  simp [JobQueue.histList, assocGet]

theorem idKey_step (q : JobQueue) (op : QOp) (h : IdKey q) : IdKey (stepOp q op) := by
  cases op with
  | createOp jid p ts st now t =>
      cases hact : q.active_job with
      | some a => simpa [stepOp, JobQueue.create_job, hact] using h
      | none =>
          simp only [stepOp, JobQueue.create_job, hact]
          intro pr hp
          rcases assocSet_mem hp with hpeq | ⟨hpold, _⟩
          · rw [hpeq]
          · exact h pr hpold
  | updateOp jid u now =>
      cases hget : assocGet q.jobs jid with
      | none => simpa [stepOp, JobQueue.update_job, hget] using h
      | some j =>
          have hj : j.id = jid := h (jid, j) (assocGet_mem _ _ _ hget)
          simp only [stepOp, JobQueue.update_job, hget]
          intro pr hp
          rcases assocSet_mem hp with hpeq | ⟨hpold, _⟩
          · rw [hpeq]
            show (if _ ∧ _ then _ else _ : JobRec).id = jid
            split <;> exact hj
          · exact h pr hpold
  | cancelOp jid now =>
      cases hget : assocGet q.jobs jid with
      | none => simpa [stepOp, JobQueue.cancel_job, hget] using h
      | some j =>
          have hj : j.id = jid := h (jid, j) (assocGet_mem _ _ _ hget)
          simp only [stepOp, JobQueue.cancel_job, hget]
          intro pr hp
          rcases assocSet_mem hp with hpeq | ⟨hpold, _⟩
          · rw [hpeq]
            exact hj
          · exact h pr hpold
  | deleteOp jid =>
      cases hget : assocGet q.jobs jid with
      | none => simpa [stepOp, JobQueue.delete_job, hget] using h
      | some j =>
          simp only [stepOp, JobQueue.delete_job, hget]
          intro pr hp
          exact h pr (List.mem_filter.mp hp).1

theorem idKey_runOps (ops : List QOp) : IdKey (runOps {} ops) := by
  have gen : ∀ (l : List QOp) (q : JobQueue), IdKey q → IdKey (runOps q l) := by
    intro l
    induction l with
    | nil => intro q hq; exact hq
    | cons op rest ih => intro q hq; exact ih (stepOp q op) (idKey_step q op hq)
  refine gen ops {} ?_
  intro p hp
  exact absurd hp (List.not_mem_nil p)

theorem historyJobs_ids_sub (q : JobQueue) (hid : IdKey q) (l : List Nat) :
    List.Sublist ((l.filterMap (fun jid => assocGet q.jobs jid)).map (fun j => j.id)) l := by
  induction l with
  | nil => simp
  | cons jid rest ih =>
      cases hg : assocGet q.jobs jid with
      | none =>
          simp only [List.filterMap_cons, hg]
          exact ih.cons jid
      | some j =>
          have hjid : j.id = jid := hid (jid, j) (assocGet_mem _ _ _ hg)
          simp only [List.filterMap_cons, hg, List.map_cons, hjid]
          exact ih.cons₂ jid

/-! ## Exact characterization of the history deque -/

theorem takeRight10_append (X Y : List Nat) :
    takeRight10 (takeRight10 X ++ Y) = takeRight10 (X ++ Y) := by
  unfold takeRight10
  rw [List.drop_append_eq_append_drop, List.drop_append_eq_append_drop,
    List.drop_drop]
  congr 1
  · congr 1
    simp only [List.length_append, List.length_drop]
    omega
  · congr 1
    simp only [List.length_append, List.length_drop]
    omega

theorem takeRight10_of_le (l : List Nat) (h : l.length ≤ 10) :
    takeRight10 l = l := by
  unfold takeRight10
  have hidx : l.length - 10 = 0 := by omega
  rw [hidx, List.drop_zero]

theorem dequeAppend10_eq_takeRight10 (l : List Nat) (x : Nat)
    (h : l.length ≤ 10) :
    dequeAppend10 l x = takeRight10 (l ++ [x]) := by
  unfold dequeAppend10 takeRight10
  split
  · rename_i h10
    have hlen : l.length = 10 := le_antisymm h h10
    have hidx : (l ++ [x]).length - 10 = 1 := by
      simp [List.length_append, hlen]
    rw [hidx]
    cases l with
    | nil => simp at hlen
    | cons a as => simp
  · rename_i h10
    have hidx : (l ++ [x]).length - 10 = 0 := by
      simp only [List.length_append, List.length_singleton]
      omega
    rw [hidx, List.drop_zero]

theorem histList_create_ok_self (q : JobQueue) (jid p ts : Nat) (st : String)
    (now : Nat) (t : ℚ) (hact : q.active_job = none) :
    (stepOp q (.createOp jid p ts st now t)).histList p
      = dequeAppend10 (q.histList p) jid := by
  simp [stepOp, JobQueue.create_job, hact, JobQueue.histList,
    assocGet_assocSet_self]

theorem histList_create_ok_other (q : JobQueue) (jid p ts : Nat) (st : String)
    (now : Nat) (t : ℚ) (pid : Nat) (hact : q.active_job = none)
    (hp : p ≠ pid) :
    (stepOp q (.createOp jid p ts st now t)).histList pid = q.histList pid := by
  simp only [stepOp, JobQueue.create_job, hact, JobQueue.histList]
  rw [assocGet_assocSet_ne _ _ _ _ (fun h => hp h.symm)]

theorem stepOp_create_fail (q : JobQueue) (jid p ts : Nat) (st : String)
    (now : Nat) (t : ℚ) (a : Nat) (hact : q.active_job = some a) :
    stepOp q (.createOp jid p ts st now t) = q := by
  simp [stepOp, JobQueue.create_job, hact]

theorem histList_update_eq (q : JobQueue) (jid : Nat) (u : JobUpdates)
    (now pid : Nat) :
    (stepOp q (.updateOp jid u now)).histList pid = q.histList pid := by
  cases hg : assocGet q.jobs jid with
  | none => simp [stepOp, JobQueue.update_job, hg]
  | some j => simp [stepOp, JobQueue.update_job, hg, JobQueue.histList]

theorem histList_cancel_eq (q : JobQueue) (jid now pid : Nat) :
    (stepOp q (.cancelOp jid now)).histList pid = q.histList pid := by
  cases hg : assocGet q.jobs jid with
  | none => simp [stepOp, JobQueue.cancel_job, hg]
  | some j => simp [stepOp, JobQueue.cancel_job, hg, JobQueue.histList]

theorem histList_run_eq (ops : List QOp) (q : JobQueue) (pid : Nat)
    (hnd : NoDeletes ops) (hb : ∀ p, (q.histList p).length ≤ 10) :
    (runOps q ops).histList pid
      = takeRight10 (q.histList pid ++ createdSucc q ops pid) := by
  induction ops generalizing q with
  | nil =>
      show q.histList pid = takeRight10 (q.histList pid ++ createdSucc q [] pid)
      rw [show createdSucc q [] pid = [] from rfl, List.append_nil]
      exact (takeRight10_of_le _ (hb pid)).symm
  | cons op rest ih =>
      have hnd2 : NoDeletes rest := fun o ho => hnd o (List.mem_cons_of_mem _ ho)
      have hb2 := histLen_step q op hb
      have ihs := ih (stepOp q op) hnd2 hb2
      show (runOps (stepOp q op) rest).histList pid
        = takeRight10 (q.histList pid ++ createdSucc q (op :: rest) pid)
      rw [ihs]
      cases op with
      | createOp jid p ts st now t =>
          cases hact : q.active_job with
          | some a =>
              have hstep := stepOp_create_fail q jid p ts st now t a hact
              have hhead : createdSucc q (.createOp jid p ts st now t :: rest) pid
                  = createdSucc (stepOp q (.createOp jid p ts st now t)) rest pid := by
                simp [createdSucc, hact]
              rw [hhead, hstep]
          | none =>
              by_cases hp : p = pid
              · subst hp
                have hhead : createdSucc q (.createOp jid p ts st now t :: rest) p
                    = [jid] ++
                      createdSucc (stepOp q (.createOp jid p ts st now t)) rest p := by
                  simp [createdSucc, hact]
                rw [hhead, histList_create_ok_self q jid p ts st now t hact,
                  dequeAppend10_eq_takeRight10 _ _ (hb p),
                  takeRight10_append, List.append_assoc]
              · have hhead : createdSucc q (.createOp jid p ts st now t :: rest) pid
                    = createdSucc (stepOp q (.createOp jid p ts st now t)) rest pid := by
                  simp [createdSucc, hp]
                rw [hhead, histList_create_ok_other q jid p ts st now t pid hact hp]
      | updateOp jid u now =>
          have hhead : createdSucc q (.updateOp jid u now :: rest) pid
              = createdSucc (stepOp q (.updateOp jid u now)) rest pid := by
            simp [createdSucc]
          rw [hhead, histList_update_eq]
      | cancelOp jid now =>
          have hhead : createdSucc q (.cancelOp jid now :: rest) pid
              = createdSucc (stepOp q (.cancelOp jid now)) rest pid := by
            simp [createdSucc]
          rw [hhead, histList_cancel_eq]
      | deleteOp jid =>
          exact absurd (hnd _ (List.mem_cons_self _ _)) (by simp [isDeleteOp])

theorem assocGet_assocSet_isSome {α : Type} (l : List (Nat × α)) (k0 k : Nat)
    (v0 : α) (h : ∃ v, assocGet l k = some v) :
    ∃ v, assocGet (assocSet l k0 v0) k = some v := by
  by_cases he : k = k0
  · subst he
    exact ⟨v0, assocGet_assocSet_self _ _ _⟩
  · obtain ⟨v, hv⟩ := h
    exact ⟨v, by rw [assocGet_assocSet_ne _ _ _ _ he]; exact hv⟩

theorem histStored_step (q : JobQueue) (op : QOp) (hnd : isDeleteOp op = false)
    (h : ∀ pid jid, jid ∈ q.histList pid → ∃ j, assocGet q.jobs jid = some j) :
    ∀ pid jid, jid ∈ (stepOp q op).histList pid →
      ∃ j, assocGet (stepOp q op).jobs jid = some j := by
  cases op with
  | createOp jid0 p ts st now t =>
      cases hact : q.active_job with
      | some a =>
          rw [stepOp_create_fail q jid0 p ts st now t a hact]
          exact h
      | none =>
          intro pid jid hmem
          have hjobs : (stepOp q (.createOp jid0 p ts st now t)).jobs
              = assocSet q.jobs jid0
                  { id := jid0, pipeline_id := p, status := st,
                    total_seeds := ts, started_at := now,
                    usageRef := q.nextRef } := by
            simp [stepOp, JobQueue.create_job, hact]
          rw [hjobs]
          by_cases he : jid = jid0
          · subst he
            exact ⟨_, assocGet_assocSet_self _ _ _⟩
          · refine assocGet_assocSet_isSome _ _ _ _ ?_
            by_cases hp : p = pid
            · subst hp
              rw [histList_create_ok_self q jid0 p ts st now t hact] at hmem
              have hmem2 : jid ∈ q.histList p ++ [jid0] :=
                (dequeAppend10_sublist _ _).subset hmem
              rcases List.mem_append.mp hmem2 with hin | hx
              · exact h p jid hin
              · simp at hx
                exact absurd hx he
            · rw [histList_create_ok_other q jid0 p ts st now t pid hact hp] at hmem
              exact h pid jid hmem
  | updateOp jid0 u now =>
      cases hget : assocGet q.jobs jid0 with
      | none =>
          have hstep : stepOp q (.updateOp jid0 u now) = q := by
            simp [stepOp, JobQueue.update_job, hget]
          rw [hstep]
          exact h
      | some j =>
          intro pid jid hmem
          rw [histList_update_eq] at hmem
          simp only [stepOp, JobQueue.update_job, hget]
          exact assocGet_assocSet_isSome _ _ _ _ (h pid jid hmem)
  | cancelOp jid0 now =>
      cases hget : assocGet q.jobs jid0 with
      | none =>
          have hstep : stepOp q (.cancelOp jid0 now) = q := by
            simp [stepOp, JobQueue.cancel_job, hget]
          rw [hstep]
          exact h
      | some j =>
          intro pid jid hmem
          rw [histList_cancel_eq] at hmem
          simp only [stepOp, JobQueue.cancel_job, hget]
          exact assocGet_assocSet_isSome _ _ _ _ (h pid jid hmem)
  | deleteOp jid0 =>
      exact absurd hnd (by simp [isDeleteOp])

theorem histStored_runOps (ops : List QOp) (hnd : NoDeletes ops) :
    ∀ pid jid, jid ∈ (runOps {} ops).histList pid →
      ∃ j, assocGet (runOps {} ops).jobs jid = some j := by
  have gen : ∀ (l : List QOp) (q : JobQueue), NoDeletes l →
      (∀ pid jid, jid ∈ q.histList pid → ∃ j, assocGet q.jobs jid = some j) →
      ∀ pid jid, jid ∈ (runOps q l).histList pid →
        ∃ j, assocGet (runOps q l).jobs jid = some j := by
    intro l
    induction l with
    | nil => intro q _ h; exact h
    | cons op rest ih =>
        intro q hnd0 h
        exact ih (stepOp q op)
          (fun o ho => hnd0 o (List.mem_cons_of_mem _ ho))
          (histStored_step q op (hnd0 op (List.mem_cons_self _ _)) h)
  refine gen ops {} hnd ?_
  intro pid jid hmem
  exact absurd hmem (List.not_mem_nil jid)

theorem history_ids_exact (q : JobQueue) (hid : IdKey q) (l : List Nat)
    (hstored : ∀ jid ∈ l, ∃ j, assocGet q.jobs jid = some j) :
    (l.filterMap (fun jid => assocGet q.jobs jid)).map (fun j => j.id) = l := by
  induction l with
  | nil => simp
  | cons jid rest ih =>
      obtain ⟨j, hj⟩ := hstored jid (List.mem_cons_self _ _)
      have hjid : j.id = jid := hid (jid, j) (assocGet_mem _ _ _ hj)
      simp only [List.filterMap_cons, hj, List.map_cons, hjid]
      rw [ih (fun x hx => hstored x (List.mem_cons_of_mem _ hx))]

/-! ## Claim theorems for the job-queue history -/

/-- Counterexample for C8: after creating job 1 (started at time 0),
completing it, and creating job 2 (started at time 5) in pipeline 7,
`get_pipeline_history` lists job 1 *first* — the deque yields oldest
first, not most recent first. -/
theorem c8_counterexample :
    ((runOps {} c8Ops).get_pipeline_history 7).map (fun j => (j.id, j.started_at))
      = [(1, 0), (2, 5)] ∧ (0 : Nat) < 5 :=
  ⟨rfl, by decide⟩

/-- C8 amended: `get_pipeline_history` returns the stored jobs whose ids
the pipeline's history deque retains, oldest first and most recent last:
across every delete-free operation sequence the returned job ids are
*exactly* the last (up to) ten job ids of the successful `create` calls
for that pipeline, in creation order — the deque retains the 10 most
recently created ids; every returned element is the job currently stored
under its id; and (for every operation sequence, deletions included) at
most 10 jobs are returned. -/
theorem c8_history_exact :
    (∀ (ops : List QOp) (pid : Nat), NoDeletes ops →
      ((runOps {} ops).get_pipeline_history pid).map (fun j => j.id)
        = takeRight10 (createdSucc {} ops pid)) ∧
    (∀ (ops : List QOp) (pid : Nat),
      ∀ j ∈ (runOps {} ops).get_pipeline_history pid,
        (runOps {} ops).get_job j.id = some j) ∧
    (∀ (ops : List QOp) (pid : Nat),
      ((runOps {} ops).get_pipeline_history pid).length ≤ 10) := by
  refine ⟨?_, ?_, ?_⟩
  · intro ops pid hnd
    have hemp : ∀ p, ((({} : JobQueue)).histList p).length ≤ 10 := by
      intro p
      simp [JobQueue.histList, assocGet]
    have hrun := histList_run_eq ops {} pid hnd hemp
    rw [show ({} : JobQueue).histList pid = [] from rfl, List.nil_append] at hrun
    have hmap := history_ids_exact (runOps {} ops) (idKey_runOps ops)
      ((runOps {} ops).histList pid)
      (fun jid hj => histStored_runOps ops hnd pid jid hj)
    exact hmap.trans hrun
  · intro ops pid j hj
    obtain ⟨jid, hjid, hget⟩ := List.mem_filterMap.mp hj
    have hid : j.id = jid := idKey_runOps ops (jid, j) (assocGet_mem _ _ _ hget)
    rw [show (runOps {} ops).get_job j.id = assocGet (runOps {} ops).jobs j.id
      from rfl, hid]
    exact hget
  · intro ops pid
    calc ((runOps {} ops).get_pipeline_history pid).length
        ≤ ((runOps {} ops).histList pid).length := List.length_filterMap_le _ _
      _ ≤ 10 := histLen_runOps ops pid

/-- Witness for C8 amended: for the concrete delete-free sequence `c8Ops`
(create job 1, complete it, create job 2, both in pipeline 7) the history
returns exactly jobs 1 then 2 — the two successful creates, oldest
first. -/
theorem c8_history_exact_witness :
    ((runOps {} c8Ops).get_pipeline_history 7).map (fun j => j.id) = [1, 2] ∧
    takeRight10 (createdSucc {} c8Ops 7) = [1, 2] := by
  constructor
  · have hnd : NoDeletes c8Ops := by
      intro op ho
      simp only [c8Ops, List.mem_cons, List.not_mem_nil, or_false] at ho
      rcases ho with rfl | rfl | rfl <;> rfl
    exact (c8_history_exact.1 c8Ops 7 hnd).trans rfl
  · rfl

/-! ## Claim theorems for `get_job`'s copy semantics -/

/-- Counterexample for C9: `get_job` returns a *shallow* copy.  The copy's
`usage` entry is the same heap object as the stored job's: writing the
nested counter through the reference held by the copy (the third
conjunct shows the copy holds address 0) changes what a subsequent
`get_job` reads — from 0 before the write to 99 after it. -/
theorem c9_counterexample :
    Option.map (fun u => u.input_tokens)
        (((runOps {} c9Ops).get_job 1).bind
          (fun j => (runOps {} c9Ops).readUsage j.usageRef)) = some 0 ∧
    Option.map (fun u => u.input_tokens)
        ((((runOps {} c9Ops).writeUsage 0 { input_tokens := 99 }).get_job 1).bind
          (fun j => ((runOps {} c9Ops).writeUsage 0
            { input_tokens := 99 }).readUsage j.usageRef)) = some 99 ∧
    ((runOps {} c9Ops).get_job 1).map (fun j => j.usageRef) = some 0 :=
  ⟨rfl, rfl, rfl⟩

/-- C9 amended: `get_job` returns a by-value copy of the job's top-level
record — equal to the stored record, so replacing its top-level entries
does not write back to the queue — but its nested `usage` object is shared
by reference: an in-place write through the copy's `usageRef` is read back
through the stored job. -/
theorem c9_get_job_shallow_copy :
    (∀ (q : JobQueue) (jid : Nat) (j : JobRec),
      q.get_job jid = some j → assocGet q.jobs jid = some j) ∧
    (∀ (q : JobQueue) (jid : Nat) (j : JobRec) (v : JobUsage),
      q.get_job jid = some j →
      ((q.writeUsage j.usageRef v).get_job jid).map (fun j2 => j2.usageRef)
          = some j.usageRef ∧
      (q.writeUsage j.usageRef v).readUsage j.usageRef = some v) := by
  constructor
  · intro q jid j h
    exact h
  · intro q jid j v h
    constructor
    · have hsame : (q.writeUsage j.usageRef v).get_job jid = q.get_job jid := rfl
      rw [hsame, h]
      rfl
    · exact assocGet_assocSet_self _ _ _

/-- Witness for C9 amended: the nested write through the copy's reference
is visible. -/
theorem c9_get_job_shallow_copy_witness :
    (runOps {} c9Ops).get_job 1 = some c9JobRec ∧
    ((runOps {} c9Ops).writeUsage c9JobRec.usageRef
        { input_tokens := 99 }).readUsage c9JobRec.usageRef
      = some { input_tokens := 99 } :=
  ⟨rfl,
   (c9_get_job_shallow_copy.2 (runOps {} c9Ops) 1 c9JobRec
      { input_tokens := 99 } rfl).2⟩

/-! ## Claim theorems for the llm-model storage -/

/-- C5: the `llm_models` table has no `is_default` column and neither
`save_llm_model` nor `delete_llm_model` carries any default-model logic,
so every model read back from storage has `is_default = false` — in
particular the first model saved into an empty table does *not* become the
default, contradicting the claim (and the repository's own
`test_auto_default_logic` integration tests). -/
theorem c5_no_default_model_logic :
    (∀ (tbl : LlmModelsTable) (cfg : LlmModelRow) (m : LLMModelConfig)
       (nm : String),
      (get_llm_model (save_llm_model tbl cfg) nm).map configFromRow = some m →
      m.is_default = false) ∧
    ((get_llm_model (save_llm_model [] c5Row) "model1").map configFromRow
      = some { name := "model1", provider := "openai", endpoint := "",
               api_key := "", model_name := "gpt-4", is_default := false }) := by
  constructor
  · intro tbl cfg m nm h
    cases hg : get_llm_model (save_llm_model tbl cfg) nm with
    | none => rw [hg] at h; exact absurd h (by simp)
    | some r =>
        rw [hg] at h
        have h2 : configFromRow r = m := by simpa using h
        rw [← h2]
        rfl
  · rfl

/-- Witness for C5: reading back the first saved model yields
`is_default = false`. -/
theorem c5_no_default_model_logic_witness :
    (configFromRow c5Row).is_default = false :=
  c5_no_default_model_logic.1 [] c5Row (configFromRow c5Row) "model1" rfl

end DataGenFlow
